import Mathlib

/-!
Verification development for the Conflict Detection and Merge Engine of the
cvsystem repository.

The definitions below are a shallow embedding of the TypeScript sources
`src/lib/conflict/detect.ts`, `src/lib/conflict/merge.ts`,
`src/lib/conflict/types.ts` and the domain model `src/domain/model/cv.ts`.

Modelling conventions, chosen once and used consistently:
* `string | null | undefined` fields become `Option String` (both JS nullish
  values collapse to `none`; the engine never distinguishes them).
* Entity `id` fields are `Option String`: the TypeScript type is `string`,
  but at runtime an imported object may lack the field, and the engine is
  claimed to react to exactly that situation, so the embedding must be able
  to represent it.  JS `undefined === undefined` is `true`, matching
  `none = none`.
* JS numbers appearing in this engine (skill levels, years, match scores)
  are modelled as `Rat`; all arithmetic performed on them here is exact in
  rationals.
* JS `Date` values are modelled by their timestamp measured in whole days
  since 1970-01-01 (`Int`); an *invalid* date (JS `NaN` timestamp) is
  modelled by `none` in `Option Int`.  Only ISO `YYYY`, `YYYY-MM` and
  `YYYY-MM-DD` strings are given a timestamp, which is the
  implementation-independent part of JS date parsing; every comparison the
  engine performs is monotone in the timestamp, so the day scale is
  faithful.
* `new Date()` (the current instant) is threaded through as an explicit
  `now : Int` parameter; `new Date().toISOString()` in the merge is an
  explicit `nowStr : String` parameter.
* JS string primitives `toLowerCase`, `trim`, `split(/\s+/)` and
  `localeCompare` are modelled by the structurally recursive helpers
  `toLowerStr`, `trimStr`, `splitStr`, `strLe` below, which agree with them
  on the ASCII strings the engine manipulates.
-/

namespace CvSystem

/-- The two locales of the bilingual model (`Locale` in `cv.ts`). -/
inductive Locale where
  | sv
  | en
deriving DecidableEq, Repr

/-- `BilingualText` from `cv.ts`: `{ sv: string | null; en: string | null }`. -/
structure BilingualText where
  sv : Option String
  en : Option String
deriving DecidableEq, Repr

/-- `Contacts` from `cv.ts`. -/
structure Contacts where
  email : Option String
  phone : Option String
  address : Option String
  website : Option String
deriving DecidableEq, Repr

/-- The inline `name` record of `DomainCV`. -/
structure PersonName where
  first : Option String
  last : Option String
deriving DecidableEq, Repr

/-- `RoleSkill` from `cv.ts`. -/
structure RoleSkill where
  id : Option String
  name : String
  level : Option Rat
  category : Option String
deriving DecidableEq, Repr

/-- `Role` from `cv.ts`.  `end` is a reserved word in Lean, hence `«end»`. -/
structure Role where
  id : Option String
  title : Option String
  company : Option String
  location : Option String
  start : Option String
  «end» : Option String
  isCurrent : Bool
  description : BilingualText
  skills : List RoleSkill
  visible : Bool
deriving DecidableEq, Repr

/-- `Skill` from `cv.ts`, with the three layered years fields. -/
structure Skill where
  id : Option String
  name : String
  level : Option Rat
  years : Option Rat
  calculatedYears : Option Rat
  overriddenYears : Option Rat
deriving DecidableEq, Repr

/-- `FeaturedProject` from `cv.ts`. -/
structure FeaturedProject where
  id : Option String
  roleId : Option String
  company : Option String
  roleTitle : Option String
  description : BilingualText
  visible : Bool
deriving DecidableEq, Repr

/-- `Training` from `cv.ts` (carried through the merge untouched). -/
structure Training where
  id : Option String
  title : String
  description : BilingualText
  issuer : Option String
  year : Option Int
  expireDate : Option String
  url : Option String
  trainingType : Nat
  visible : Bool
deriving DecidableEq, Repr

/-- `Education` from `cv.ts` (carried through the merge untouched). -/
structure Education where
  id : Option String
  schoolName : String
  programName : Option String
  degree : Option String
  description : BilingualText
  location : Option String
  startDate : Option String
  endDate : Option String
  ongoing : Bool
  url : Option String
  visible : Bool
deriving DecidableEq, Repr

/-- `Commitment` from `cv.ts` (carried through the merge untouched). -/
structure Commitment where
  id : Option String
  title : String
  description : BilingualText
  commitmentType : String
  venue : Option String
  date : Option String
  url : Option String
  visible : Bool
deriving DecidableEq, Repr

/-- `DomainCV` from `cv.ts`: one snapshot of the bilingual document. -/
structure DomainCV where
  id : String
  locales : List Locale
  updatedAt : Option String
  name : PersonName
  title : BilingualText
  summary : BilingualText
  contacts : Option Contacts
  photoDataUrl : Option String
  featuredProjects : List FeaturedProject
  skills : List Skill
  roles : List Role
  trainings : List Training
  educations : List Education
  commitments : List Commitment
deriving DecidableEq, Repr

/-! ## Conflict types (`src/lib/conflict/types.ts`) -/

/-- `ConflictType`: `'modified' | 'added' | 'removed'`. -/
inductive ConflictType where
  | modified
  | added
  | removed
deriving DecidableEq, Repr

/-- `ConflictSection`: `'title' | 'summary' | 'role' | 'skill'`. -/
inductive ConflictSection where
  | title
  | summary
  | role
  | skill
deriving DecidableEq, Repr

/-- `ConflictResolution`: `'keep' | 'accept' | 'skip'`. -/
inductive ConflictResolution where
  | keep
  | accept
  | skip
deriving DecidableEq, Repr

/-- `TextConflict` from `types.ts` (the optional, never-populated
`resolution` field of `BaseConflict` is omitted). -/
structure TextConflict where
  id : String
  type : ConflictType
  «section» : ConflictSection
  current : BilingualText
  incoming : BilingualText
deriving DecidableEq, Repr

/-- `RoleConflict` from `types.ts`. -/
structure RoleConflict where
  id : String
  type : ConflictType
  «section» : ConflictSection
  current : Option Role
  incoming : Option Role
  matchScore : Option Rat
deriving DecidableEq, Repr

/-- `SkillConflict` from `types.ts`. -/
structure SkillConflict where
  id : String
  type : ConflictType
  «section» : ConflictSection
  current : Option Skill
  incoming : Option Skill
deriving DecidableEq, Repr

/-- The `conflicts` record inside `ConflictAnalysis`. -/
structure ConflictLists where
  title : Option TextConflict
  summary : Option TextConflict
  roles : List RoleConflict
  skills : List SkillConflict
deriving DecidableEq, Repr

/-- The `stats` record inside `ConflictAnalysis`. -/
structure ConflictStats where
  rolesModified : Nat
  rolesAdded : Nat
  rolesRemoved : Nat
  skillsModified : Nat
  skillsAdded : Nat
  skillsRemoved : Nat
deriving DecidableEq, Repr

/-- `ConflictAnalysis` from `types.ts`. -/
structure ConflictAnalysis where
  hasConflicts : Bool
  totalConflicts : Nat
  conflicts : ConflictLists
  stats : ConflictStats
deriving DecidableEq, Repr

/-- `ConflictResolutions` from `types.ts`.  The two JS
`Record<string, ConflictResolution>` maps are modelled as functions from
conflict id to an optional resolution (`none` = key absent). -/
structure ConflictResolutions where
  title : Option ConflictResolution
  summary : Option ConflictResolution
  roles : String → Option ConflictResolution
  skills : String → Option ConflictResolution

/-! ## Similarity utilities (`src/lib/conflict/detect.ts`) -/

/-- Model of `String.prototype.toLowerCase` (ASCII, which is all the engine
relies on), implemented structurally on the character list. -/
def toLowerStr (s : String) : String :=
  ⟨s.data.map Char.toLower⟩

/-- Model of `String.prototype.trim`, implemented structurally on the
character list. -/
def trimStr (s : String) : String :=
  ⟨((s.data.dropWhile Char.isWhitespace).reverse.dropWhile Char.isWhitespace).reverse⟩

/-- Split a character list at every character satisfying `p` (the separator
characters are dropped; empty segments are kept, as JS `split` keeps
them). -/
def splitChAux (p : Char → Bool) : List Char → List Char → List (List Char)
  | [], acc => [acc.reverse]
  | c :: cs, acc =>
    if p c then acc.reverse :: splitChAux p cs [] else splitChAux p cs (c :: acc)

/-- Model of `String.prototype.split` against a single-character-class
separator. -/
def splitStr (p : Char → Bool) (s : String) : List String :=
  (splitChAux p s.data []).map String.mk

/-- Lexicographic comparison of character lists (by code point). -/
def charListLe : List Char → List Char → Bool
  | [], _ => true
  | _ :: _, [] => false
  | a :: as, b :: bs => if a = b then charListLe as bs else a.toNat < b.toNat

/-- Model of the string order induced by `localeCompare`: code-point
lexicographic. -/
def strLe (a b : String) : Bool :=
  charListLe a.data b.data

/-- JS falsiness of a nullable string: `null`, `undefined` and `''` are
falsy; every other string is truthy. -/
def strFalsy : Option String → Bool
  | none => true
  | some s => s = ""

/-- JS template-literal rendering of a possibly-missing id:
`` `${undefined}` `` is the string `"undefined"`. -/
def jsStr : Option String → String
  | none => "undefined"
  | some s => s

/-- `textsAreDifferent` from `detect.ts`: compare the two locales after
`?? ''` and `trim()`. -/
def textsAreDifferent (a b : BilingualText) : Bool :=
  let aSv := trimStr (a.sv.getD "")
  let bSv := trimStr (b.sv.getD "")
  let aEn := trimStr (a.en.getD "")
  let bEn := trimStr (b.en.getD "")
  aSv ≠ bSv || aEn ≠ bEn

/-- `hasContent` from `detect.ts`: some locale has a non-empty trimmed
value. -/
def hasContent (text : BilingualText) : Bool :=
  trimStr (text.sv.getD "") ≠ "" || trimStr (text.en.getD "") ≠ ""

/-- The token set used by `stringSimilarity`: lower-case, split on
whitespace, keep words of length > 2, collapse duplicates (the JS `Set`).
`List.dedup` keeps the first occurrence of every token; only membership and
cardinality of the result are ever used. -/
def tokensOf (s : String) : List String :=
  ((splitStr (fun c => c.isWhitespace) (toLowerStr s)).filter fun w => w.length > 2).dedup

/-- `stringSimilarity` from `detect.ts`: Jaccard similarity on word sets.
The two JS falsiness guards (`!a && !b`, `!a || !b`) also catch empty
strings. -/
def stringSimilarity (a b : Option String) : Rat :=
  if strFalsy a && strFalsy b then 1
  else if strFalsy a || strFalsy b then 0
  else
    let wordsA := tokensOf (a.getD "")
    let wordsB := tokensOf (b.getD "")
    if wordsA.length = 0 && wordsB.length = 0 then 1
    else if wordsA.length = 0 || wordsB.length = 0 then 0
    else
      let inter := (wordsA.filter fun w => w ∈ wordsB).length
      let union := (wordsA ++ wordsB).dedup.length
      (inter : Rat) / (union : Rat)

/-! ## The JS date model -/

/-- Days from 1970-01-01 of the civil date `y-m-d` (`y ≥ 1`), the classic
era-based civil-calendar computation; all intermediate values are natural
numbers, the final shift makes pre-1970 dates negative. -/
def daysFromCivil (y m d : Nat) : Int :=
  let y2 := if m ≤ 2 then y - 1 else y
  let era := y2 / 400
  let yoe := y2 % 400
  let mp := (m + 9) % 12
  let doy := (153 * mp + 2) / 5 + d - 1
  let doe := yoe * 365 + yoe / 4 - yoe / 100 + doy
  (era * 146097 + doe : Int) - 719468

/-- Day count of month `m` in year `y` (Gregorian). -/
def daysInMonth (y m : Nat) : Nat :=
  if m = 2 then
    if y % 4 = 0 && (y % 100 ≠ 0 || y % 400 = 0) then 29 else 28
  else if m = 4 || m = 6 || m = 9 || m = 11 then 30
  else 31

/-- Numeric value of two decimal digit characters. -/
def twoDigits (a b : Char) : Nat :=
  (a.toNat - 48) * 10 + (b.toNat - 48)

/-- Numeric value of four decimal digit characters. -/
def fourDigits (a b c d : Char) : Nat :=
  ((a.toNat - 48) * 10 + (b.toNat - 48)) * 100 + (c.toNat - 48) * 10 + (d.toNat - 48)

/-- ISO date parsing on the character list: exactly the `YYYY`, `YYYY-MM`
and `YYYY-MM-DD` shapes, with month and day range checks. -/
def parseDateChars : List Char → Option Int
  | [y1, y2, y3, y4] =>
    if [y1, y2, y3, y4].all Char.isDigit then
      some (daysFromCivil (fourDigits y1 y2 y3 y4) 1 1)
    else none
  | [y1, y2, y3, y4, '-', m1, m2] =>
    if [y1, y2, y3, y4, m1, m2].all Char.isDigit
        && 1 ≤ twoDigits m1 m2 && twoDigits m1 m2 ≤ 12 then
      some (daysFromCivil (fourDigits y1 y2 y3 y4) (twoDigits m1 m2) 1)
    else none
  | [y1, y2, y3, y4, '-', m1, m2, '-', d1, d2] =>
    if [y1, y2, y3, y4, m1, m2, d1, d2].all Char.isDigit
        && 1 ≤ twoDigits m1 m2 && twoDigits m1 m2 ≤ 12
        && 1 ≤ twoDigits d1 d2
        && twoDigits d1 d2 ≤ daysInMonth (fourDigits y1 y2 y3 y4) (twoDigits m1 m2) then
      some (daysFromCivil (fourDigits y1 y2 y3 y4) (twoDigits m1 m2) (twoDigits d1 d2))
    else none
  | _ => none

/-- The timestamp (in days, see the module comment) that `new Date(s)`
assigns to the string `s`: ISO `YYYY`, `YYYY-MM` and `YYYY-MM-DD` forms
parse to midnight UTC of the named day (first day of the period); anything
else is an Invalid Date, i.e. a `NaN` timestamp, modelled as `none`. -/
def parseDate (s : String) : Option Int :=
  parseDateChars s.data

/-- JS `<=` on two timestamps of which either may be `NaN` (`none`): any
comparison against `NaN` is `false`. -/
def jsDateLe : Option Int → Option Int → Bool
  | some x, some y => x ≤ y
  | _, _ => false

/-- `dateRangesOverlap` from `detect.ts`.  A falsy start yields `null` (no
overlap possible); a falsy end is replaced by the current instant `now`; an
unparseable non-empty string yields an Invalid Date, which is *truthy* in
the `!s1 || !s2` guard but makes every subsequent comparison `false`. -/
def dateRangesOverlap (now : Int) (start1 end1 start2 end2 : Option String) : Bool :=
  let s1 : Option (Option Int) :=
    if strFalsy start1 then none else some (parseDate (start1.getD ""))
  let e1 : Option Int :=
    if strFalsy end1 then some now else parseDate (end1.getD "")
  let s2 : Option (Option Int) :=
    if strFalsy start2 then none else some (parseDate (start2.getD ""))
  let e2 : Option Int :=
    if strFalsy end2 then some now else parseDate (end2.getD "")
  match s1, s2 with
  | some t1, some t2 => jsDateLe t1 e2 && jsDateLe t2 e1
  | _, _ => false

/-! ## Entity matching and difference tests (`detect.ts`) -/

/-- `calculateRoleMatchScore` from `detect.ts`: 1.0 on equal ids, otherwise
the weighted sum (overlap 3, title 2, company 2, exact-date bonus 0.5+0.5)
normalized by the total weight 8. -/
def calculateRoleMatchScore (now : Int) (current incoming : Role) : Rat :=
  if current.id = incoming.id then 1
  else
    let overlapPts : Rat :=
      if dateRangesOverlap now current.start current.«end» incoming.start incoming.«end»
      then 3 else 0
    let titleSim := stringSimilarity current.title incoming.title
    let companySim := stringSimilarity current.company incoming.company
    let startBonus : Rat := if current.start = incoming.start then 1/2 else 0
    let endBonus : Rat :=
      if current.«end» = incoming.«end» || (current.isCurrent && incoming.isCurrent)
      then 1/2 else 0
    (overlapPts + titleSim * 2 + companySim * 2 + startBonus + endBonus) / 8

/-- The set of lower-cased skill-tag names of a role, as used by
`rolesAreDifferent` (a JS `Set`, here a deduplicated list). -/
def roleSkillNames (r : Role) : List String :=
  (r.skills.map fun s => toLowerStr s.name).dedup

/-- `rolesAreDifferent` from `detect.ts`: field-by-field comparison, the
bilingual description compared trimmed, the technology tags compared as a
set of lower-cased names plus a raw count check. -/
def rolesAreDifferent (current incoming : Role) : Bool :=
  current.title ≠ incoming.title
    || current.company ≠ incoming.company
    || current.location ≠ incoming.location
    || current.start ≠ incoming.start
    || current.«end» ≠ incoming.«end»
    || current.isCurrent ≠ incoming.isCurrent
    || current.visible ≠ incoming.visible
    || textsAreDifferent current.description incoming.description
    || current.skills.length ≠ incoming.skills.length
    || (let currentSkillNames := roleSkillNames current
        let incomingSkillNames := roleSkillNames incoming
        currentSkillNames.length ≠ incomingSkillNames.length
          || currentSkillNames.any fun name => name ∉ incomingSkillNames)

/-- `skillsAreDifferent` from `detect.ts`: only `level` and `years` are
compared (the name is the matching key). -/
def skillsAreDifferent (current incoming : Skill) : Bool :=
  current.level ≠ incoming.level || current.years ≠ incoming.years

/-- `matchSkillByName` from `detect.ts`: first skill whose name matches
case-insensitively. -/
def matchSkillByName (skills : List Skill) (name : String) : Option Skill :=
  skills.find? fun s => toLowerStr s.name = toLowerStr name

/-- One step of the best-match scan in `findBestRoleMatch`. -/
def bestMatchStep (now : Int) (role : Role) (threshold : Rat)
    (acc : Option Role × Rat) (candidate : Role) : Option Role × Rat :=
  let score := calculateRoleMatchScore now role candidate
  if score > acc.2 && score ≥ threshold then (some candidate, score) else acc

/-- `findBestRoleMatch` from `detect.ts`: linear scan keeping the highest
scoring candidate at or above the threshold (strictly above the running
best, so the earliest maximum wins). -/
def findBestRoleMatch (now : Int) (role : Role) (candidates : List Role)
    (threshold : Rat) : Option (Role × Rat) :=
  match candidates.foldl (bestMatchStep now role threshold) (none, 0) with
  | (some bestMatch, bestScore) => some (bestMatch, bestScore)
  | (none, _) => none

/-! ## Conflict detection (`detectConflicts` in `detect.ts`)

The single function is a sequence of loops over the two snapshots; each
loop becomes one structurally recursive pass returning the conflicts it
pushes together with the counters it increments and the id sets it fills,
in iteration order. -/

/-- The text conflict (if any) for one scalar bilingual field, as emitted
by the two `if` blocks at the top of `detectConflicts`. -/
def textFieldConflict (fieldName : String) (sec : ConflictSection)
    (current incoming : BilingualText) : Option TextConflict :=
  if textsAreDifferent current incoming then
    if hasContent current || hasContent incoming then
      some { id := fieldName, type := .modified, «section» := sec
             current := current, incoming := incoming }
    else none
  else none

/-- First role loop of `detectConflicts`: for every current role find the
best incoming match; record both ids as matched; push a `modified` conflict
when the matched pair differs.  Returns
(conflicts, `stats.rolesModified`, matched current ids, matched incoming ids). -/
def roleModifiedPass (now : Int) (incomingRoles : List Role) :
    List Role → List RoleConflict × Nat × List (Option String) × List (Option String)
  | [] => ([], 0, [], [])
  | currentRole :: rest =>
    let (cs, n, mc, mi) := roleModifiedPass now incomingRoles rest
    match findBestRoleMatch now currentRole incomingRoles (1/2) with
    | some (m, score) =>
      if rolesAreDifferent currentRole m then
        ({ id := "role-" ++ jsStr currentRole.id, type := .modified
           «section» := .role, current := some currentRole, incoming := some m
           matchScore := some score } :: cs,
         n + 1, currentRole.id :: mc, m.id :: mi)
      else (cs, n, currentRole.id :: mc, m.id :: mi)
    | none => (cs, n, mc, mi)

/-- Second role loop of `detectConflicts`: every current role whose id was
never matched becomes a `removed` conflict.  Returns (conflicts, count). -/
def roleRemovedPass (matchedCurrentRoles : List (Option String)) :
    List Role → List RoleConflict × Nat
  | [] => ([], 0)
  | currentRole :: rest =>
    let (cs, n) := roleRemovedPass matchedCurrentRoles rest
    if currentRole.id ∈ matchedCurrentRoles then (cs, n)
    else
      ({ id := "role-removed-" ++ jsStr currentRole.id, type := .removed
         «section» := .role, current := some currentRole, incoming := none
         matchScore := none } :: cs, n + 1)

/-- Third role loop of `detectConflicts`: every incoming role whose id was
never matched becomes an `added` conflict.  Returns (conflicts, count). -/
def roleAddedPass (matchedIncomingRoles : List (Option String)) :
    List Role → List RoleConflict × Nat
  | [] => ([], 0)
  | incomingRole :: rest =>
    let (cs, n) := roleAddedPass matchedIncomingRoles rest
    if incomingRole.id ∈ matchedIncomingRoles then (cs, n)
    else
      ({ id := "role-added-" ++ jsStr incomingRole.id, type := .added
         «section» := .role, current := none, incoming := some incomingRole
         matchScore := none } :: cs, n + 1)

/-- First skill loop of `detectConflicts`: match by name; a matched pair
that differs pushes `modified`, an unmatched current skill pushes `removed`
inline.  Returns
(conflicts, `stats.skillsModified`, `stats.skillsRemoved`, matched incoming names). -/
def skillModifiedPass (incomingSkills : List Skill) :
    List Skill → List SkillConflict × Nat × Nat × List String
  | [] => ([], 0, 0, [])
  | currentSkill :: rest =>
    let (cs, nMod, nRem, names) := skillModifiedPass incomingSkills rest
    match matchSkillByName incomingSkills currentSkill.name with
    | some incomingSkill =>
      if skillsAreDifferent currentSkill incomingSkill then
        ({ id := "skill-" ++ jsStr currentSkill.id, type := .modified
           «section» := .skill, current := some currentSkill
           incoming := some incomingSkill } :: cs,
         nMod + 1, nRem, toLowerStr incomingSkill.name :: names)
      else (cs, nMod, nRem, toLowerStr incomingSkill.name :: names)
    | none =>
      ({ id := "skill-removed-" ++ jsStr currentSkill.id, type := .removed
         «section» := .skill, current := some currentSkill
         incoming := none } :: cs,
       nMod, nRem + 1, names)

/-- Second skill loop of `detectConflicts`: every incoming skill whose
lower-cased name was never matched becomes an `added` conflict. -/
def skillAddedPass (matchedIncomingSkills : List String) :
    List Skill → List SkillConflict × Nat
  | [] => ([], 0)
  | incomingSkill :: rest =>
    let (cs, n) := skillAddedPass matchedIncomingSkills rest
    if toLowerStr incomingSkill.name ∈ matchedIncomingSkills then (cs, n)
    else
      ({ id := "skill-added-" ++ jsStr incomingSkill.id, type := .added
         «section» := .skill, current := none
         incoming := some incomingSkill } :: cs, n + 1)

/-- `detectConflicts` from `detect.ts`: compare two snapshots and return
the conflict analysis.  `now` is the instant `new Date()` would observe. -/
def detectConflicts (now : Int) (current incoming : DomainCV) : ConflictAnalysis :=
  let titleConflict := textFieldConflict "title" .title current.title incoming.title
  let summaryConflict := textFieldConflict "summary" .summary current.summary incoming.summary
  let mp := roleModifiedPass now incoming.roles current.roles
  let remP := roleRemovedPass mp.2.2.1 current.roles
  let addP := roleAddedPass mp.2.2.2 incoming.roles
  let roleConflicts := mp.1 ++ remP.1 ++ addP.1
  let smp := skillModifiedPass incoming.skills current.skills
  let saP := skillAddedPass smp.2.2.2 incoming.skills
  let skillConflicts := smp.1 ++ saP.1
  let totalConflicts :=
    (if titleConflict.isSome then 1 else 0)
      + (if summaryConflict.isSome then 1 else 0)
      + roleConflicts.length + skillConflicts.length
  { hasConflicts := totalConflicts > 0
    totalConflicts := totalConflicts
    conflicts :=
      { title := titleConflict, summary := summaryConflict
        roles := roleConflicts, skills := skillConflicts }
    stats :=
      { rolesModified := mp.2.1, rolesAdded := addP.2
        rolesRemoved := remP.2, skillsModified := smp.2.1
        skillsAdded := saP.2, skillsRemoved := smp.2.2.1 } }

/-! ## Merge (`src/lib/conflict/merge.ts`) -/

/-- The number `a.start ? new Date(a.start).getTime() : 0` used by the role
sort comparator in `applyRoleResolutions`: a falsy start is 0 (the epoch),
an unparseable start is `NaN` (`none`). -/
def roleTime (r : Role) : Option Int :=
  if strFalsy r.start then some 0 else parseDate (r.start.getD "")

/-- Role sort order: the JS comparator returns `dateB - dateA`, so `a` may
precede `b` iff that number is `≤ 0`, i.e. `timeB ≤ timeA` (descending);
when either timestamp is `NaN` the comparator value is treated as `0`
(elements compare as equal). -/
def roleSortLe (a b : Role) : Bool :=
  match roleTime a, roleTime b with
  | some ta, some tb => tb ≤ ta
  | _, _ => true

/-- Skill sort order: `a.name.localeCompare(b.name)`, modelled by the
lexicographic order on strings. -/
def skillSortLe (a b : Skill) : Bool :=
  strLe a.name b.name

/-- Stable insertion of one element into a sorted list: `x` goes in front
of the first element `y` with `le x y`. -/
def insertSorted (le : α → α → Bool) (x : α) : List α → List α
  | [] => [x]
  | y :: ys => if le x y then x :: y :: ys else y :: insertSorted le x ys

/-- Stable insertion sort, modelling `Array.prototype.sort` with a
comparator (the ECMAScript sort is stable and, for a consistent comparator,
produces a comparator-sorted arrangement — which insertion sort is). -/
def insortBy (le : α → α → Bool) : List α → List α
  | [] => []
  | x :: xs => insertSorted le x (insortBy le xs)

/-- The conflict loop of `applyRoleResolutions`: walk the conflicts in
order, pushing the entity chosen by the per-conflict resolution and
recording handled ids.  Returns (result, handledCurrentIds,
handledIncomingIds). -/
def processRoleConflicts (resolutions : String → Option ConflictResolution) :
    List RoleConflict → List Role × List (Option String) × List (Option String)
  | [] => ([], [], [])
  | conflict :: rest =>
    let (rs, hc, hi) := processRoleConflicts resolutions rest
    let resolution := resolutions conflict.id
    match conflict.type with
    | .modified =>
      let hc2 := match conflict.current with
        | some cur => cur.id :: hc
        | none => hc
      let hi2 := match conflict.incoming with
        | some inc => inc.id :: hi
        | none => hi
      match conflict.incoming, conflict.current with
      | some inc, _ =>
        if resolution = some .accept then (inc :: rs, hc2, hi2)
        else match conflict.current with
          | some cur => (cur :: rs, hc2, hi2)
          | none => (rs, hc2, hi2)
      | none, some cur => (cur :: rs, hc2, hi2)
      | none, none => (rs, hc2, hi2)
    | .added =>
      match conflict.incoming with
      | some inc =>
        if resolution = some .accept then (inc :: rs, hc, inc.id :: hi)
        else (rs, hc, inc.id :: hi)
      | none => (rs, hc, hi)
    | .removed =>
      match conflict.current with
      | some cur =>
        if resolution ≠ some .accept then (cur :: rs, cur.id :: hc, hi)
        else (rs, cur.id :: hc, hi)
      | none => (rs, hc, hi)

/-- `applyRoleResolutions` from `merge.ts`: apply the per-conflict choices,
carry over every current role that was not part of any conflict, then sort
by start date descending (missing start = 0). -/
def applyRoleResolutions (currentRoles _incomingRoles : List Role)
    (conflicts : List RoleConflict)
    (resolutions : String → Option ConflictResolution) : List Role :=
  let pc := processRoleConflicts resolutions conflicts
  let rest := currentRoles.filter fun role => role.id ∉ pc.2.1
  insortBy roleSortLe (pc.1 ++ rest)

/-- The conflict loop of `applySkillResolutions`; on a `modified` conflict
resolved `accept` the incoming skill is taken but the current skill's
`overriddenYears` and `calculatedYears` are preserved verbatim
(`conflict.current?.overriddenYears` is `undefined` when `current` is
absent). -/
def processSkillConflicts (resolutions : String → Option ConflictResolution) :
    List SkillConflict → List Skill × List (Option String) × List String
  | [] => ([], [], [])
  | conflict :: rest =>
    let (rs, hc, hn) := processSkillConflicts resolutions rest
    let resolution := resolutions conflict.id
    match conflict.type with
    | .modified =>
      let hc2 := match conflict.current with
        | some cur => cur.id :: hc
        | none => hc
      let hn2 := match conflict.incoming with
        | some inc => toLowerStr inc.name :: hn
        | none => hn
      match conflict.incoming, conflict.current with
      | some inc, _ =>
        if resolution = some .accept then
          let merged : Skill :=
            { inc with
              overriddenYears := match conflict.current with
                | some cur => cur.overriddenYears
                | none => none
              calculatedYears := match conflict.current with
                | some cur => cur.calculatedYears
                | none => none }
          (merged :: rs, hc2, hn2)
        else match conflict.current with
          | some cur => (cur :: rs, hc2, hn2)
          | none => (rs, hc2, hn2)
      | none, some cur => (cur :: rs, hc2, hn2)
      | none, none => (rs, hc2, hn2)
    | .added =>
      match conflict.incoming with
      | some inc =>
        if resolution = some .accept then (inc :: rs, hc, toLowerStr inc.name :: hn)
        else (rs, hc, toLowerStr inc.name :: hn)
      | none => (rs, hc, hn)
    | .removed =>
      match conflict.current with
      | some cur =>
        if resolution ≠ some .accept then (cur :: rs, cur.id :: hc, hn)
        else (rs, cur.id :: hc, hn)
      | none => (rs, hc, hn)

/-- `applySkillResolutions` from `merge.ts`: apply the per-conflict
choices, carry over unconflicted current skills, sort alphabetically. -/
def applySkillResolutions (currentSkills _incomingSkills : List Skill)
    (conflicts : List SkillConflict)
    (resolutions : String → Option ConflictResolution) : List Skill :=
  let pc := processSkillConflicts resolutions conflicts
  let rest := currentSkills.filter fun skill => skill.id ∉ pc.2.1
  insortBy skillSortLe (pc.1 ++ rest)

/-- The `hasAnyContacts` helper inside `mergeWithResolutions`:
`Boolean(c?.email || c?.phone || c?.address || c?.website)`. -/
def hasAnyContacts (cv : DomainCV) : Bool :=
  match cv.contacts with
  | none => false
  | some c => !strFalsy c.email || !strFalsy c.phone || !strFalsy c.address || !strFalsy c.website

/-- `mergeWithResolutions` from `merge.ts`: start from a structural copy of
`current`, fill empty contact/photo fields from `incoming`, apply the
title/summary resolutions, delegate the two collections, and stamp a fresh
`updatedAt` (`nowStr` models `new Date().toISOString()`). -/
def mergeWithResolutions (nowStr : String) (current incoming : DomainCV)
    (analysis : ConflictAnalysis) (resolutions : ConflictResolutions) : DomainCV :=
  { current with
    contacts :=
      if !hasAnyContacts current && hasAnyContacts incoming then incoming.contacts
      else current.contacts
    photoDataUrl :=
      if strFalsy current.photoDataUrl && !strFalsy incoming.photoDataUrl then
        incoming.photoDataUrl
      else current.photoDataUrl
    title :=
      if analysis.conflicts.title.isSome && resolutions.title.isSome then
        if resolutions.title = some .accept then incoming.title else current.title
      else current.title
    summary :=
      if analysis.conflicts.summary.isSome && resolutions.summary.isSome then
        if resolutions.summary = some .accept then incoming.summary else current.summary
      else current.summary
    roles :=
      applyRoleResolutions current.roles incoming.roles
        analysis.conflicts.roles resolutions.roles
    skills :=
      applySkillResolutions current.skills incoming.skills
        analysis.conflicts.skills resolutions.skills
    updatedAt := some nowStr }

/-- `createDefaultResolutions` from `merge.ts`: one entry per detected
conflict, all set to `defaultChoice` (the JS record build is a fold of
single-key updates over the conflict lists). -/
def createDefaultResolutions (analysis : ConflictAnalysis)
    (defaultChoice : ConflictResolution) : ConflictResolutions :=
  { title := if analysis.conflicts.title.isSome then some defaultChoice else none
    summary := if analysis.conflicts.summary.isSome then some defaultChoice else none
    roles :=
      analysis.conflicts.roles.foldl
        (fun f conflict id => if id = conflict.id then some defaultChoice else f id)
        fun _ => none
    skills :=
      analysis.conflicts.skills.foldl
        (fun f conflict id => if id = conflict.id then some defaultChoice else f id)
        fun _ => none }

/-- `acceptAllIncoming` from `merge.ts`. -/
def acceptAllIncoming (analysis : ConflictAnalysis) : ConflictResolutions :=
  createDefaultResolutions analysis .accept

/-- `keepAllCurrent` from `merge.ts`. -/
def keepAllCurrent (analysis : ConflictAnalysis) : ConflictResolutions :=
  createDefaultResolutions analysis .keep

/-! ## Specification-side definitions

These definitions phrase the *specification's* vocabulary (well-formedness,
"content" equality up to sort order, the round-trip provisos) so that the
claims can be stated against the embedded engine; they are written from the
spec's words, not from the source. -/

/-- A well-formed snapshot in the sense of §3 of the spec: every entity
carries its id, ids are unique within a collection, and skill names — "the
matching key" — are unique case-insensitively. -/
def WellFormed (cv : DomainCV) : Prop :=
  (∀ r ∈ cv.roles, r.id.isSome)
    ∧ cv.roles.Pairwise (fun a b => a.id ≠ b.id)
    ∧ (∀ s ∈ cv.skills, s.id.isSome)
    ∧ cv.skills.Pairwise (fun a b => a.id ≠ b.id)
    ∧ cv.skills.Pairwise (fun a b => toLowerStr a.name ≠ toLowerStr b.name)

instance (cv : DomainCV) : Decidable (WellFormed cv) := by
  unfold WellFormed
  infer_instance

/-- The content of a bilingual field as the spec compares it: the pair of
trimmed locale values (empty and missing collapse). -/
def bkey (t : BilingualText) : String × String :=
  (trimStr (t.sv.getD ""), trimStr (t.en.getD ""))

/-- The content of a skill as the spec compares it: case-insensitive name
(the matching key) together with the two compared fields `level` and
`years`. -/
def skey (s : Skill) : String × Option Rat × Option Rat :=
  (toLowerStr s.name, s.level, s.years)

/-- The content of a role as the spec compares it (§4.3): every field the
detector's field-by-field comparison looks at, with the description trimmed
and the technology tags as a set of lower-cased names (represented
canonically sorted) plus the raw tag count. -/
structure RoleKey where
  title : Option String
  company : Option String
  location : Option String
  start : Option String
  «end» : Option String
  isCurrent : Bool
  visible : Bool
  descSv : String
  descEn : String
  skillCount : Nat
  skillNames : List String
deriving DecidableEq, Repr

/-- The role content key (see `RoleKey`). -/
def rkey (r : Role) : RoleKey :=
  { title := r.title, company := r.company, location := r.location
    start := r.start, «end» := r.«end», isCurrent := r.isCurrent
    visible := r.visible
    descSv := trimStr (r.description.sv.getD "")
    descEn := trimStr (r.description.en.getD "")
    skillCount := r.skills.length
    skillNames := insortBy strLe (roleSkillNames r) }

/-- "Content equals `B`'s, up to sort order and the refreshed timestamp"
(§8 accept-all round trip): bilingual fields agree trimmed, and the two
collections carry the same multiset of entity contents. -/
def ContentMatchesIncoming (merged incoming : DomainCV) : Prop :=
  bkey merged.title = bkey incoming.title
    ∧ bkey merged.summary = bkey incoming.summary
    ∧ Multiset.ofList (merged.roles.map rkey) = Multiset.ofList (incoming.roles.map rkey)
    ∧ Multiset.ofList (merged.skills.map skey) = Multiset.ofList (incoming.skills.map skey)

/-- The round-trip proviso as the claim states it: nothing was falsely
classified `removed` — no removed-classified entity has a content twin in
the incoming snapshot. -/
def NoFalseRemoved (now : Int) (current incoming : DomainCV) : Prop :=
  (∀ c ∈ (detectConflicts now current incoming).conflicts.roles,
    c.type = .removed → ∀ r ∈ c.current.toList,
      ∀ i ∈ incoming.roles, rkey i ≠ rkey r)
    ∧ (∀ c ∈ (detectConflicts now current incoming).conflicts.skills,
      c.type = .removed → ∀ s ∈ c.current.toList,
        ∀ i ∈ incoming.skills, skey i ≠ skey s)

/-- Injectivity of the heuristic role matching: no two current roles pick
best matches with the same id.  (Non-exclusive greedy matching does not
guarantee this; it is the extra hypothesis the accept-all round trip
needs.) -/
def MatchInjective (now : Int) (current incoming : DomainCV) : Prop :=
  ∀ r ∈ current.roles, ∀ s ∈ current.roles,
    (findBestRoleMatch now r incoming.roles (1/2)).isSome →
    Option.map (fun p => p.1.id) (findBestRoleMatch now r incoming.roles (1/2))
      = Option.map (fun p => p.1.id) (findBestRoleMatch now s incoming.roles (1/2)) →
    r = s

/-- The sort key the *claim* about the merged role order asserts: start
date, with a missing (or unparseable) start as the earliest possible
date. -/
def specStartKey (r : Role) : WithBot Int :=
  match r.start with
  | none => ⊥
  | some s =>
    match parseDate s with
    | some t => (t : WithBot Int)
    | none => ⊥

/-- A start field the merge comparator assigns an actual (non-`NaN`)
timestamp: absent, empty, or a parseable date. -/
def validStart (r : Role) : Prop :=
  (roleTime r).isSome

/-- The timestamp the merge comparator actually sorts by: 0 for a missing
start, the parsed timestamp otherwise. -/
def effStart (r : Role) : Int :=
  (roleTime r).getD 0

/-! ## Concrete test data for the scenario clauses and witnesses -/

/-- The empty bilingual text. -/
def emptyBT : BilingualText := ⟨none, none⟩

/-- A role template: every optional field empty. -/
def baseRole : Role :=
  { id := some "r", title := none, company := none, location := none
    start := none, «end» := none, isCurrent := false
    description := emptyBT, skills := [], visible := true }

/-- A skill template: every optional field empty. -/
def baseSkill : Skill :=
  { id := some "s", name := "X", level := none, years := none
    calculatedYears := none, overriddenYears := none }

/-- A snapshot template with empty collections. -/
def emptyCV : DomainCV :=
  { id := "cv", locales := [.sv, .en], updatedAt := none
    name := ⟨none, none⟩, title := emptyBT, summary := emptyBT
    contacts := none, photoDataUrl := none, featuredProjects := []
    skills := [], roles := [], trainings := [], educations := []
    commitments := [] }

/-- The empty resolution map (no conflict resolved). -/
def emptyResolutions : ConflictResolutions :=
  ⟨none, none, fun _ => none, fun _ => none⟩

/-- Scenario A, current role: `2020-01 → 2021-01` at Acme. -/
def scenARoleCur : Role :=
  { baseRole with
    id := some "r1", title := some "Developer", company := some "Acme"
    start := some "2020-01", «end» := some "2021-01" }

/-- Scenario A, incoming role: dates shifted by one month. -/
def scenARoleInc : Role :=
  { baseRole with
    id := some "r2", title := some "Developer", company := some "Acme"
    start := some "2020-02", «end» := some "2021-02" }

/-- Scenario A, current snapshot. -/
def scenACur : DomainCV := { emptyCV with roles := [scenARoleCur] }

/-- Scenario A, incoming snapshot. -/
def scenAInc : DomainCV := { emptyCV with roles := [scenARoleInc] }

/-! ## General lemmas -/

/-- The title conflict slot of an analysis is the title field
comparison. -/
theorem detect_title_eq (now : Int) (cur inc : DomainCV) :
    (detectConflicts now cur inc).conflicts.title =
      textFieldConflict "title" .title cur.title inc.title := rfl

/-- The summary conflict slot of an analysis is the summary field
comparison. -/
theorem detect_summary_eq (now : Int) (cur inc : DomainCV) :
    (detectConflicts now cur inc).conflicts.summary =
      textFieldConflict "summary" .summary cur.summary inc.summary := rfl

/-- `textsAreDifferent` unfolded to the two trimmed locale comparisons. -/
theorem textsAreDifferent_iff (a b : BilingualText) :
    textsAreDifferent a b = true ↔
      (trimStr (a.sv.getD "") ≠ trimStr (b.sv.getD "")
        ∨ trimStr (a.en.getD "") ≠ trimStr (b.en.getD "")) := by
  simp [textsAreDifferent]

/-- Two bilingual texts that differ cannot both be without content (four
empty trimmed values are all equal), so the detector's `hasContent` guard
never suppresses a genuine difference. -/
theorem textsAreDifferent_hasContent (a b : BilingualText)
    (h : textsAreDifferent a b = true) :
    hasContent a = true ∨ hasContent b = true := by
  simp only [textsAreDifferent, Bool.or_eq_true, decide_eq_true_eq] at h
  simp only [hasContent, Bool.or_eq_true, decide_eq_true_eq]
  by_contra hc
  push_neg at hc
  obtain ⟨⟨ha1, ha2⟩, hb1, hb2⟩ := hc
  rcases h with h | h
  · exact h (ha1.trans hb1.symm)
  · exact h (ha2.trans hb2.symm)

/-- Exact characterization of the per-field text conflict. -/
theorem textFieldConflict_eq_some_iff (f : String) (sec : ConflictSection)
    (a b : BilingualText) :
    textFieldConflict f sec a b =
        some { id := f, type := .modified, «section» := sec, current := a, incoming := b }
      ↔ (textsAreDifferent a b = true ∧ (hasContent a = true ∨ hasContent b = true)) := by
  unfold textFieldConflict
  split_ifs with h1 h2
  · simp_all [Bool.or_eq_true]
  · simp_all [Bool.or_eq_true]
  · simp_all

/-- The per-field text conflict is absent exactly when the values do not
differ (in some locale, trimmed) or neither side has content. -/
theorem textFieldConflict_eq_none_iff (f : String) (sec : ConflictSection)
    (a b : BilingualText) :
    textFieldConflict f sec a b = none
      ↔ ¬(textsAreDifferent a b = true ∧ (hasContent a = true ∨ hasContent b = true)) := by
  unfold textFieldConflict
  split_ifs with h1 h2
  · simp_all [Bool.or_eq_true]
  · simp_all [Bool.or_eq_true]
  · simp_all

/-! ## Claims -/

/-- C4: the role match score is exactly 1.0 on equal ids and otherwise the
weighted sum (3·overlap + 2·title-similarity + 2·company-similarity +
0.5·start-equal + 0.5·(end-equal or both current)) / 8; in particular, for
two roles whose dates are shifted by one month (2020-01→2021-01 vs
2020-02→2021-02) with identical title and company the score is exactly
0.875 ≥ 0.5 and the pair is matched as one `modified` conflict. -/
theorem matchScore_weighted_formula :
    (∀ (now : Int) (cur inc : Role),
      calculateRoleMatchScore now cur inc =
        if cur.id = inc.id then 1
        else
          (3 * (if dateRangesOverlap now cur.start cur.«end» inc.start inc.«end» then (1 : Rat) else 0)
            + 2 * stringSimilarity cur.title inc.title
            + 2 * stringSimilarity cur.company inc.company
            + (1/2) * (if cur.start = inc.start then (1 : Rat) else 0)
            + (1/2) * (if cur.«end» = inc.«end» ∨ (cur.isCurrent ∧ inc.isCurrent) then (1 : Rat) else 0)) / 8)
    ∧ calculateRoleMatchScore 20000 scenARoleCur scenARoleInc = 7/8
    ∧ ((7 : Rat)/8 ≥ 1/2)
    ∧ (detectConflicts 20000 scenACur scenAInc).conflicts.roles =
        [{ id := "role-r1", type := .modified, «section» := .role
           current := some scenARoleCur, incoming := some scenARoleInc
           matchScore := some (7/8) }] := by
  refine ⟨fun now cur inc => ?_, ?_, ?_, ?_⟩
  · unfold calculateRoleMatchScore
    by_cases h : cur.id = inc.id
    · simp [h]
    · simp only [if_neg h]
      split_ifs <;> simp_all <;> ring
  · set_option maxRecDepth 4000 in with_unfolding_all decide
  · norm_num
  · set_option maxRecDepth 4000 in with_unfolding_all decide

/-- Scenario C, current title: Swedish only. -/
def scenCTitleCur : BilingualText := ⟨some "Utvecklare", none⟩

/-- Scenario C, incoming title: Swedish identical, English added. -/
def scenCTitleInc : BilingualText := ⟨some "Utvecklare", some "Developer"⟩

/-- C9: for each scalar bilingual field the detector emits exactly one
`modified` text conflict keyed by the field name iff the two values differ
in some locale's trimmed value and at least one side has content; absent
otherwise (so two empty/missing values never conflict); in particular
`{sv:"Utvecklare", en:null}` against `{sv:"Utvecklare", en:"Developer"}`
yields one modified title conflict. -/
theorem text_conflict_iff_differs :
    (∀ (now : Int) (cur inc : DomainCV),
      ((detectConflicts now cur inc).conflicts.title =
          some { id := "title", type := .modified, «section» := .title
                 current := cur.title, incoming := inc.title }
        ↔ ((trimStr (cur.title.sv.getD "") ≠ trimStr (inc.title.sv.getD "")
              ∨ trimStr (cur.title.en.getD "") ≠ trimStr (inc.title.en.getD ""))
            ∧ (hasContent cur.title = true ∨ hasContent inc.title = true)))
      ∧ ((detectConflicts now cur inc).conflicts.title = none
        ↔ ¬((trimStr (cur.title.sv.getD "") ≠ trimStr (inc.title.sv.getD "")
              ∨ trimStr (cur.title.en.getD "") ≠ trimStr (inc.title.en.getD ""))
            ∧ (hasContent cur.title = true ∨ hasContent inc.title = true)))
      ∧ ((detectConflicts now cur inc).conflicts.summary =
          some { id := "summary", type := .modified, «section» := .summary
                 current := cur.summary, incoming := inc.summary }
        ↔ ((trimStr (cur.summary.sv.getD "") ≠ trimStr (inc.summary.sv.getD "")
              ∨ trimStr (cur.summary.en.getD "") ≠ trimStr (inc.summary.en.getD ""))
            ∧ (hasContent cur.summary = true ∨ hasContent inc.summary = true)))
      ∧ ((detectConflicts now cur inc).conflicts.summary = none
        ↔ ¬((trimStr (cur.summary.sv.getD "") ≠ trimStr (inc.summary.sv.getD "")
              ∨ trimStr (cur.summary.en.getD "") ≠ trimStr (inc.summary.en.getD ""))
            ∧ (hasContent cur.summary = true ∨ hasContent inc.summary = true))))
    ∧ (detectConflicts 0 { emptyCV with title := scenCTitleCur }
          { emptyCV with title := scenCTitleInc }).conflicts.title =
        some { id := "title", type := .modified, «section» := .title
               current := scenCTitleCur, incoming := scenCTitleInc } := by
  constructor
  · intro now cur inc
    refine ⟨?_, ?_, ?_, ?_⟩
    · rw [detect_title_eq, textFieldConflict_eq_some_iff, textsAreDifferent_iff]
    · rw [detect_title_eq, textFieldConflict_eq_none_iff, textsAreDifferent_iff]
    · rw [detect_summary_eq, textFieldConflict_eq_some_iff, textsAreDifferent_iff]
    · rw [detect_summary_eq, textFieldConflict_eq_none_iff, textsAreDifferent_iff]
  · set_option maxRecDepth 4000 in with_unfolding_all decide

/-- Inserting into a list is a permutation of consing. -/
theorem insertSorted_perm (le : α → α → Bool) (x : α) (l : List α) :
    List.Perm (insertSorted le x l) (x :: l) := by
  induction l with
  | nil => simp [insertSorted]
  | cons y ys ih =>
    unfold insertSorted
    split_ifs
    · exact List.Perm.refl _
    · exact ((ih.cons y).trans (List.Perm.swap x y ys))

/-- The sort used by the merge is a permutation (nothing is lost or
duplicated by sorting). -/
theorem insortBy_perm (le : α → α → Bool) (l : List α) :
    List.Perm (insortBy le l) l := by
  induction l with
  | nil => simp [insortBy]
  | cons x xs ih =>
    exact (insertSorted_perm le x (insortBy le xs)).trans (ih.cons x)

/-- Sorting preserves membership. -/
theorem mem_insortBy (le : α → α → Bool) (x : α) (l : List α) :
    x ∈ insortBy le l ↔ x ∈ l :=
  (insortBy_perm le l).mem_iff

/-- Filling an absent resolution with `keep` answers the accept test the
same way. -/
theorem getD_keep_eq_accept (o : Option ConflictResolution) :
    (o.getD .keep = ConflictResolution.accept) ↔ o = some .accept := by
  cases o <;> simp [Option.getD]

/-- The role conflict loop cannot distinguish an absent resolution from an
explicit `keep`. -/
theorem processRoleConflicts_fillKeep (res : String → Option ConflictResolution)
    (conflicts : List RoleConflict) :
    processRoleConflicts (fun id => some ((res id).getD .keep)) conflicts =
      processRoleConflicts res conflicts := by
  induction conflicts with
  | nil => rfl
  | cons c cs ih =>
    obtain ⟨cid, ctype, csec, ccur, cinc, cms⟩ := c
    cases ctype <;> cases ccur <;> cases cinc <;>
      simp only [processRoleConflicts, ih] <;>
      simp [getD_keep_eq_accept]

/-- The skill conflict loop cannot distinguish an absent resolution from an
explicit `keep`. -/
theorem processSkillConflicts_fillKeep (res : String → Option ConflictResolution)
    (conflicts : List SkillConflict) :
    processSkillConflicts (fun id => some ((res id).getD .keep)) conflicts =
      processSkillConflicts res conflicts := by
  induction conflicts with
  | nil => rfl
  | cons c cs ih =>
    obtain ⟨cid, ctype, csec, ccur, cinc⟩ := c
    cases ctype <;> cases ccur <;> cases cinc <;>
      simp only [processSkillConflicts, ih] <;>
      simp [getD_keep_eq_accept]

/-- Anything pushed for the tail conflicts is still in the result when one
more conflict is processed first. -/
theorem processSkillConflicts_mem_cons (res : String → Option ConflictResolution)
    (c : SkillConflict) (cs : List SkillConflict) (x : Skill)
    (h : x ∈ (processSkillConflicts res cs).1) :
    x ∈ (processSkillConflicts res (c :: cs)).1 := by
  obtain ⟨cid, ctype, csec, ccur, cinc⟩ := c
  cases ctype <;> cases ccur <;> cases cinc <;>
    simp only [processSkillConflicts] <;>
    first
      | (split_ifs <;> simp_all)
      | simp_all

/-- A `modified` skill conflict resolved `accept` pushes the incoming skill
with the current skill's `overriddenYears` and `calculatedYears`. -/
theorem processSkillConflicts_accept_mem (res : String → Option ConflictResolution)
    (conflicts : List SkillConflict) (c : SkillConflict) (cur inc : Skill)
    (hc : c ∈ conflicts) (ht : c.type = .modified)
    (hcur : c.current = some cur) (hinc : c.incoming = some inc)
    (hres : res c.id = some .accept) :
    ({ inc with
        overriddenYears := cur.overriddenYears
        calculatedYears := cur.calculatedYears } : Skill)
      ∈ (processSkillConflicts res conflicts).1 := by
  induction conflicts with
  | nil => cases hc
  | cons d ds ih =>
    rcases List.mem_cons.mp hc with rfl | hmem
    · obtain ⟨cid, ctype, csec, ccur, cinc⟩ := c
      simp only at ht hcur hinc hres
      subst ht hcur hinc
      simp only [processSkillConflicts, hres, if_pos]
      simp
    · exact processSkillConflicts_mem_cons res d ds _ (ih hmem)

/-- The skills of the merged snapshot are the skill-resolution result. -/
theorem merge_skills_eq (nowStr : String) (current incoming : DomainCV)
    (analysis : ConflictAnalysis) (resolutions : ConflictResolutions) :
    (mergeWithResolutions nowStr current incoming analysis resolutions).skills =
      applySkillResolutions current.skills incoming.skills
        analysis.conflicts.skills resolutions.skills := rfl

/-- The roles of the merged snapshot are the role-resolution result. -/
theorem merge_roles_eq (nowStr : String) (current incoming : DomainCV)
    (analysis : ConflictAnalysis) (resolutions : ConflictResolutions) :
    (mergeWithResolutions nowStr current incoming analysis resolutions).roles =
      applyRoleResolutions current.roles incoming.roles
        analysis.conflicts.roles resolutions.roles := rfl

/-- Scenario D, the incoming-only role. -/
def scenDRole : Role :=
  { baseRole with
    id := some "d1", title := some "Architect", company := some "Initech"
    start := some "2022-03" }

/-- Scenario D, incoming snapshot containing only the new role. -/
def scenDInc : DomainCV := { emptyCV with roles := [scenDRole] }

/-- Scenario D conflict analysis: the lone incoming role is `added`. -/
def scenDAnalysis : ConflictAnalysis := detectConflicts 0 emptyCV scenDInc

/-- C6: a conflict id absent from the resolutions map falls back to the
type's no-op branch — indistinguishable from an explicit `keep` (current
kept for `modified`/`removed`, incoming omitted for `added`) — so the
engine produces a complete merged snapshot from any partially-filled map;
in particular an incoming-only `added` role is excluded under the `keep`
default and under the empty map, and included under `accept`. -/
theorem unresolved_conflict_noop :
    (∀ (currentRoles incomingRoles : List Role) (conflicts : List RoleConflict)
        (res : String → Option ConflictResolution),
      applyRoleResolutions currentRoles incomingRoles conflicts
          (fun id => some ((res id).getD .keep))
        = applyRoleResolutions currentRoles incomingRoles conflicts res)
    ∧ (∀ (currentSkills incomingSkills : List Skill) (conflicts : List SkillConflict)
        (res : String → Option ConflictResolution),
      applySkillResolutions currentSkills incomingSkills conflicts
          (fun id => some ((res id).getD .keep))
        = applySkillResolutions currentSkills incomingSkills conflicts res)
    ∧ (∀ (i : String) (sec : ConflictSection) (ms : Option Rat) (cur inc : Role)
        (cs : List RoleConflict),
      (processRoleConflicts (fun _ => none)
          ({ id := i, type := .modified, «section» := sec, current := some cur
             incoming := some inc, matchScore := ms } :: cs)).1
        = cur :: (processRoleConflicts (fun _ => none) cs).1)
    ∧ (∀ (i : String) (sec : ConflictSection) (ms : Option Rat) (cur : Role)
        (cs : List RoleConflict),
      (processRoleConflicts (fun _ => none)
          ({ id := i, type := .removed, «section» := sec, current := some cur
             incoming := none, matchScore := ms } :: cs)).1
        = cur :: (processRoleConflicts (fun _ => none) cs).1)
    ∧ (∀ (i : String) (sec : ConflictSection) (ms : Option Rat) (inc : Role)
        (cs : List RoleConflict),
      (processRoleConflicts (fun _ => none)
          ({ id := i, type := .added, «section» := sec, current := none
             incoming := some inc, matchScore := ms } :: cs)).1
        = (processRoleConflicts (fun _ => none) cs).1)
    ∧ (∀ (i : String) (sec : ConflictSection) (cur inc : Skill)
        (cs : List SkillConflict),
      (processSkillConflicts (fun _ => none)
          ({ id := i, type := .modified, «section» := sec, current := some cur
             incoming := some inc } :: cs)).1
        = cur :: (processSkillConflicts (fun _ => none) cs).1)
    ∧ (∀ (i : String) (sec : ConflictSection) (cur : Skill)
        (cs : List SkillConflict),
      (processSkillConflicts (fun _ => none)
          ({ id := i, type := .removed, «section» := sec, current := some cur
             incoming := none } :: cs)).1
        = cur :: (processSkillConflicts (fun _ => none) cs).1)
    ∧ (∀ (i : String) (sec : ConflictSection) (inc : Skill)
        (cs : List SkillConflict),
      (processSkillConflicts (fun _ => none)
          ({ id := i, type := .added, «section» := sec, current := none
             incoming := some inc } :: cs)).1
        = (processSkillConflicts (fun _ => none) cs).1)
    ∧ (mergeWithResolutions "ts" emptyCV scenDInc scenDAnalysis
        (keepAllCurrent scenDAnalysis)).roles = []
    ∧ (mergeWithResolutions "ts" emptyCV scenDInc scenDAnalysis
        emptyResolutions).roles = []
    ∧ (mergeWithResolutions "ts" emptyCV scenDInc scenDAnalysis
        (acceptAllIncoming scenDAnalysis)).roles = [scenDRole] := by
  refine ⟨?_, ?_, ?_, ?_, ?_, ?_, ?_, ?_, ?_, ?_, ?_⟩
  · intro currentRoles incomingRoles conflicts res
    simp only [applyRoleResolutions, processRoleConflicts_fillKeep]
  · intro currentSkills incomingSkills conflicts res
    simp only [applySkillResolutions, processSkillConflicts_fillKeep]
  · intro i sec ms cur inc cs
    simp [processRoleConflicts]
  · intro i sec ms cur cs
    simp [processRoleConflicts]
  · intro i sec ms inc cs
    simp [processRoleConflicts]
  · intro i sec cur inc cs
    simp [processSkillConflicts]
  · intro i sec cur cs
    simp [processSkillConflicts]
  · intro i sec inc cs
    simp [processSkillConflicts]
  · set_option maxRecDepth 4000 in with_unfolding_all decide
  · set_option maxRecDepth 4000 in with_unfolding_all decide
  · set_option maxRecDepth 4000 in with_unfolding_all decide

/-- C5: a `modified` skill conflict resolved `accept` contributes to the
merged snapshot the incoming skill with the current skill's
`overriddenYears` and `calculatedYears` preserved verbatim. -/
theorem skill_accept_preserves_overrides :
    ∀ (nowStr : String) (current incoming : DomainCV)
      (analysis : ConflictAnalysis) (res : ConflictResolutions)
      (c : SkillConflict) (cur inc : Skill),
      c ∈ analysis.conflicts.skills → c.type = .modified →
      c.current = some cur → c.incoming = some inc →
      res.skills c.id = some .accept →
      ({ inc with
          overriddenYears := cur.overriddenYears
          calculatedYears := cur.calculatedYears } : Skill)
        ∈ (mergeWithResolutions nowStr current incoming analysis res).skills := by
  intro nowStr current incoming analysis res c cur inc hc ht hcur hinc hres
  rw [merge_skills_eq]
  simp only [applySkillResolutions]
  rw [mem_insortBy]
  exact List.mem_append_left _
    (processSkillConflicts_accept_mem res.skills analysis.conflicts.skills c cur inc
      hc ht hcur hinc hres)

/-- Scenario B, current skill: React with 3 years and no override. -/
def scenBSkillCur : Skill :=
  { baseSkill with id := some "s1", name := "React", years := some 3 }

/-- Scenario B, incoming skill: React with 5 years. -/
def scenBSkillInc : Skill :=
  { baseSkill with id := some "s2", name := "React", years := some 5 }

/-- Scenario B, current snapshot. -/
def scenBCur : DomainCV := { emptyCV with skills := [scenBSkillCur] }

/-- Scenario B, incoming snapshot. -/
def scenBInc : DomainCV := { emptyCV with skills := [scenBSkillInc] }

/-- Scenario B conflict analysis: one modified skill conflict. -/
def scenBAnalysis : ConflictAnalysis := detectConflicts 0 scenBCur scenBInc

/-- Scenario B's conflict record. -/
def scenBConflict : SkillConflict :=
  { id := "skill-s1", type := .modified, «section» := .skill
    current := some scenBSkillCur, incoming := some scenBSkillInc }

/-- Witness for C5 (scenario B): React current years=3/override null versus
incoming years=5, resolved accept, yields the merged skill with years=5 and
overriddenYears still null. -/
theorem skill_accept_preserves_overrides_witness :
    scenBConflict ∈ scenBAnalysis.conflicts.skills
    ∧ (acceptAllIncoming scenBAnalysis).skills scenBConflict.id = some .accept
    ∧ ({ scenBSkillInc with
          overriddenYears := scenBSkillCur.overriddenYears
          calculatedYears := scenBSkillCur.calculatedYears } : Skill)
        ∈ (mergeWithResolutions "ts" scenBCur scenBInc scenBAnalysis
            (acceptAllIncoming scenBAnalysis)).skills
    ∧ (mergeWithResolutions "ts" scenBCur scenBInc scenBAnalysis
        (acceptAllIncoming scenBAnalysis)).skills =
      [{ id := some "s2", name := "React", level := none, years := some 5
         calculatedYears := none, overriddenYears := none }] := by
  refine ⟨?h1, ?h2, ?h3, ?h4⟩
  case h1 => set_option maxRecDepth 4000 in with_unfolding_all decide
  case h2 => set_option maxRecDepth 4000 in with_unfolding_all decide
  case h3 =>
    exact skill_accept_preserves_overrides "ts" scenBCur scenBInc scenBAnalysis
      (acceptAllIncoming scenBAnalysis) scenBConflict scenBSkillCur scenBSkillInc
      (by set_option maxRecDepth 4000 in with_unfolding_all decide) rfl rfl rfl
      (by set_option maxRecDepth 4000 in with_unfolding_all decide)
  case h4 => set_option maxRecDepth 4000 in with_unfolding_all decide

/-- The structurally invalid role of the C2 counterexample: no id. -/
def idlessRole : Role :=
  { baseRole with id := none, title := some "Ghost", company := some "Acme" }

/-- A snapshot containing an entity with a missing id (structurally
invalid in the spec's sense). -/
def invalidCV : DomainCV := { emptyCV with roles := [idlessRole] }

/-- C2 counterexample: the merge engine performs no structural validation.
For a snapshot whose only role lacks its id, `mergeWithResolutions` does
not fail — it returns a complete merged snapshot (the invalid entity
retained, the timestamp refreshed), refuting the claim that the call fails
with a validation error and returns no merged snapshot. -/
theorem merge_accepts_invalid_snapshot :
    (¬ ∀ r ∈ invalidCV.roles, r.id.isSome)
    ∧ mergeWithResolutions "2024-01-01" invalidCV emptyCV
        (detectConflicts 0 invalidCV emptyCV)
        (keepAllCurrent (detectConflicts 0 invalidCV emptyCV))
      = { invalidCV with updatedAt := some "2024-01-01" } := by
  constructor
  · set_option maxRecDepth 4000 in with_unfolding_all decide
  · set_option maxRecDepth 4000 in with_unfolding_all decide

/-- C2 amended: `mergeWithResolutions` performs no validation of its
inputs; given a snapshot whose entity lacks its id it still completes the
merge, keeps the offending entity under the default resolution, and stamps
the result — it never fails. -/
theorem merge_no_validation :
    ∀ (r : Role), r.id = none → ∀ (now : Int) (nowStr : String),
      (mergeWithResolutions nowStr { emptyCV with roles := [r] } emptyCV
          (detectConflicts now { emptyCV with roles := [r] } emptyCV)
          (keepAllCurrent (detectConflicts now { emptyCV with roles := [r] } emptyCV))).roles
        = [r]
      ∧ (mergeWithResolutions nowStr { emptyCV with roles := [r] } emptyCV
          (detectConflicts now { emptyCV with roles := [r] } emptyCV)
          (keepAllCurrent (detectConflicts now { emptyCV with roles := [r] } emptyCV))).updatedAt
        = some nowStr := by
  intro r _hid now nowStr
  constructor
  · simp [mergeWithResolutions, applyRoleResolutions, detectConflicts,
      roleModifiedPass, roleRemovedPass, roleAddedPass, skillModifiedPass,
      skillAddedPass, findBestRoleMatch, bestMatchStep, keepAllCurrent,
      createDefaultResolutions, processRoleConflicts, emptyCV,
      insortBy, insertSorted]
  · rfl

/-- Witness for C2 amended: the concrete id-less role. -/
theorem merge_no_validation_witness :
    idlessRole.id = none
    ∧ (mergeWithResolutions "2024-01-01" { emptyCV with roles := [idlessRole] } emptyCV
          (detectConflicts 0 { emptyCV with roles := [idlessRole] } emptyCV)
          (keepAllCurrent (detectConflicts 0 { emptyCV with roles := [idlessRole] } emptyCV))).roles
        = [idlessRole] :=
  ⟨rfl, (merge_no_validation idlessRole rfl 0 "2024-01-01").1⟩

/-- Stable insertion keeps a sorted list sorted, with the order hypotheses
needed only on the members involved. -/
theorem insertSorted_sorted (le : α → α → Bool) (x : α) (l : List α)
    (hs : l.Pairwise (le · ·))
    (htot : ∀ b ∈ l, le x b = true ∨ le b x = true)
    (htrans : ∀ b ∈ l, ∀ c ∈ l, le x b = true → le b c = true → le x c = true) :
    (insertSorted le x l).Pairwise (le · ·) := by
  induction l with
  | nil => simp [insertSorted]
  | cons y ys ih =>
    unfold insertSorted
    rcases List.pairwise_cons.mp hs with ⟨hy, hys⟩
    split_ifs with hxy
    · refine List.pairwise_cons.mpr ⟨?_, hs⟩
      intro z hz
      rcases List.mem_cons.mp hz with rfl | hz2
      · exact hxy
      · exact htrans y (by simp) z (by simp [hz2]) hxy (hy z hz2)
    · have hyx : le y x = true := by
        rcases htot y (by simp) with h | h
        · exact absurd h hxy
        · exact h
      refine List.pairwise_cons.mpr ⟨?_, ?_⟩
      · intro z hz
        rcases List.mem_cons.mp ((insertSorted_perm le x ys).mem_iff.mp hz) with rfl | hz2
        · exact hyx
        · exact hy z hz2
      · exact ih hys (fun b hb => htot b (by simp [hb]))
          (fun b hb c hc => htrans b (by simp [hb]) c (by simp [hc]))

/-- The merge's sort produces a comparator-sorted list whenever the
comparator is total and transitive on the list's members. -/
theorem insortBy_pairwise (le : α → α → Bool) (l : List α)
    (htot : ∀ a ∈ l, ∀ b ∈ l, le a b = true ∨ le b a = true)
    (htrans : ∀ a ∈ l, ∀ b ∈ l, ∀ c ∈ l,
      le a b = true → le b c = true → le a c = true) :
    (insortBy le l).Pairwise (le · ·) := by
  induction l with
  | nil => simp [insortBy]
  | cons x xs ih =>
    have hmem : ∀ b ∈ insortBy le xs, b ∈ xs := fun b hb =>
      (insortBy_perm le xs).mem_iff.mp hb
    exact insertSorted_sorted le x (insortBy le xs)
      (ih (fun a ha b hb => htot a (by simp [ha]) b (by simp [hb]))
          (fun a ha b hb c hc =>
            htrans a (by simp [ha]) b (by simp [hb]) c (by simp [hc])))
      (fun b hb => htot x (by simp) b (by simp [hmem b hb]))
      (fun b hb c hc => htrans x (by simp) b (by simp [hmem b hb]) c (by simp [hmem c hc]))

/-- Every role the conflict loop pushes comes from a conflict's `current`
or `incoming` slot. -/
theorem processRoleConflicts_sub (res : String → Option ConflictResolution)
    (d : RoleConflict) (ds : List RoleConflict) :
    (processRoleConflicts res (d :: ds)).1 ⊆
      d.current.toList ++ d.incoming.toList ++ (processRoleConflicts res ds).1 := by
  obtain ⟨cid, ctype, csec, ccur, cinc, cms⟩ := d
  cases ctype <;> cases ccur <;> cases cinc <;>
    simp only [processRoleConflicts] <;>
    (try split_ifs) <;>
    simp_all [List.subset_def, List.mem_cons, Option.toList]

/-- A property of all conflict entities holds for every pushed role. -/
theorem processRoleConflicts_forall (res : String → Option ConflictResolution)
    (conflicts : List RoleConflict) (P : Role → Prop)
    (hP : ∀ c ∈ conflicts,
      (∀ r, c.current = some r → P r) ∧ (∀ r, c.incoming = some r → P r))
    (x : Role) (hx : x ∈ (processRoleConflicts res conflicts).1) : P x := by
  induction conflicts with
  | nil => simp [processRoleConflicts] at hx
  | cons d ds ih =>
    have := processRoleConflicts_sub res d ds hx
    rcases List.mem_append.mp this with h1 | h2
    · rcases List.mem_append.mp h1 with h3 | h4
      · exact (hP d (by simp)).1 x (Option.mem_toList.mp h3)
      · exact (hP d (by simp)).2 x (Option.mem_toList.mp h4)
    · exact ih (fun c hc => hP c (by simp [hc])) h2

instance (r : Role) : Decidable (validStart r) := by
  unfold validStart
  infer_instance

/-- The role comparator is total. -/
theorem roleSortLe_total (a b : Role) :
    roleSortLe a b = true ∨ roleSortLe b a = true := by
  rcases ha : roleTime a with _ | ta <;> rcases hb : roleTime b with _ | tb <;>
    simp [roleSortLe, ha, hb]
  exact Int.le_total tb ta

/-- On roles with an actual timestamp, the comparator is the descending
order of the effective start. -/
theorem roleSortLe_iff_of_valid (a b : Role) (hva : validStart a) (hvb : validStart b) :
    roleSortLe a b = true ↔ effStart b ≤ effStart a := by
  unfold validStart at hva hvb
  obtain ⟨ta, hta⟩ := Option.isSome_iff_exists.mp hva
  obtain ⟨tb, htb⟩ := Option.isSome_iff_exists.mp hvb
  simp [roleSortLe, effStart, hta, htb]

/-- C8 amended: whenever every role involved has a start that is missing or
a valid date (no `NaN` timestamps), the merged roles are sorted by
*effective* start timestamp descending, where a missing start is assigned
the epoch timestamp 0 — not the earliest possible date. -/
theorem merged_roles_sorted :
    ∀ (nowStr : String) (current incoming : DomainCV) (analysis : ConflictAnalysis)
      (res : ConflictResolutions),
      (∀ r ∈ current.roles, validStart r) →
      (∀ c ∈ analysis.conflicts.roles,
        ∀ r ∈ c.current.toList ++ c.incoming.toList, validStart r) →
      ((mergeWithResolutions nowStr current incoming analysis res).roles).Pairwise
        (fun a b => effStart b ≤ effStart a) := by
  intro nowStr current incoming analysis res hcur hconf0
  have hconf : ∀ c ∈ analysis.conflicts.roles,
      (∀ r, c.current = some r → validStart r)
        ∧ (∀ r, c.incoming = some r → validStart r) := by
    intro c hc
    exact ⟨fun r hr => hconf0 c hc r (by simp [hr, Option.toList]),
      fun r hr => hconf0 c hc r (by simp [hr, Option.toList])⟩
  rw [merge_roles_eq]
  simp only [applyRoleResolutions]
  have hvalid : ∀ x ∈ (processRoleConflicts res.roles analysis.conflicts.roles).1
      ++ (current.roles.filter fun role =>
            role.id ∉ (processRoleConflicts res.roles analysis.conflicts.roles).2.1),
      validStart x := by
    intro x hx
    rcases List.mem_append.mp hx with h | h
    · exact processRoleConflicts_forall res.roles analysis.conflicts.roles validStart hconf x h
    · exact hcur x (List.mem_of_mem_filter h)
  have hsorted := insortBy_pairwise roleSortLe _
    (fun a _ b _ => roleSortLe_total a b)
    (fun a ha b hb c hc h1 h2 => by
      rw [roleSortLe_iff_of_valid a b (hvalid a ha) (hvalid b hb)] at h1
      rw [roleSortLe_iff_of_valid b c (hvalid b hb) (hvalid c hc)] at h2
      rw [roleSortLe_iff_of_valid a c (hvalid a ha) (hvalid c hc)]
      exact le_trans h2 h1)
  refine hsorted.imp_of_mem ?_
  intro a b hma hmb hr
  have hva := hvalid a ((mem_insortBy roleSortLe a _).mp hma)
  have hvb := hvalid b ((mem_insortBy roleSortLe b _).mp hmb)
  exact (roleSortLe_iff_of_valid a b hva hvb).mp hr

/-- A role with no start date at all. -/
def noStartRole : Role := { baseRole with id := some "n" }

/-- A role starting before the Unix epoch. -/
def pre1970Role : Role :=
  { baseRole with id := some "o", title := some "Old", start := some "1960-06" }

/-- A snapshot holding a missing-start role and a pre-1970 role. -/
def epochCV : DomainCV := { emptyCV with roles := [noStartRole, pre1970Role] }

/-- C8 counterexample: a missing start is given the epoch timestamp 0, not
the earliest possible date, so the merged list puts the missing-start role
*before* a role that started in 1960 — the output is not sorted by the
claimed order in which a missing start is the earliest date. -/
theorem missing_start_not_earliest :
    noStartRole.start = none
    ∧ pre1970Role.start = some "1960-06"
    ∧ (mergeWithResolutions "ts" epochCV emptyCV (detectConflicts 0 epochCV emptyCV)
        emptyResolutions).roles = [noStartRole, pre1970Role]
    ∧ ¬ ((mergeWithResolutions "ts" epochCV emptyCV (detectConflicts 0 epochCV emptyCV)
        emptyResolutions).roles.Pairwise
          (fun a b => specStartKey b ≤ specStartKey a)) := by
  refine ⟨rfl, rfl, ?_, ?_⟩
  · set_option maxRecDepth 4000 in with_unfolding_all decide
  · set_option maxRecDepth 4000 in with_unfolding_all decide

/-- Witness for C8 amended: the same snapshot satisfies the validity
hypotheses and the merged list is sorted by effective timestamp
descending. -/
theorem merged_roles_sorted_witness :
    (∀ r ∈ epochCV.roles, validStart r)
    ∧ (∀ c ∈ (detectConflicts 0 epochCV emptyCV).conflicts.roles,
        ∀ r ∈ c.current.toList ++ c.incoming.toList, validStart r)
    ∧ ((mergeWithResolutions "ts" epochCV emptyCV (detectConflicts 0 epochCV emptyCV)
        emptyResolutions).roles).Pairwise (fun a b => effStart b ≤ effStart a) :=
  ⟨by set_option maxRecDepth 4000 in with_unfolding_all decide,
   by set_option maxRecDepth 4000 in with_unfolding_all decide,
   merged_roles_sorted "ts" epochCV emptyCV (detectConflicts 0 epochCV emptyCV)
     emptyResolutions
     (by set_option maxRecDepth 4000 in with_unfolding_all decide)
     (by set_option maxRecDepth 4000 in with_unfolding_all decide)⟩

/-- The role conflict list is the concatenation of the three loops. -/
theorem detect_roles_eq (now : Int) (cur inc : DomainCV) :
    (detectConflicts now cur inc).conflicts.roles =
      (roleModifiedPass now inc.roles cur.roles).1
        ++ (roleRemovedPass (roleModifiedPass now inc.roles cur.roles).2.2.1 cur.roles).1
        ++ (roleAddedPass (roleModifiedPass now inc.roles cur.roles).2.2.2 inc.roles).1 := rfl

/-- The skill conflict list is the concatenation of the two loops. -/
theorem detect_skills_eq (now : Int) (cur inc : DomainCV) :
    (detectConflicts now cur inc).conflicts.skills =
      (skillModifiedPass inc.skills cur.skills).1
        ++ (skillAddedPass (skillModifiedPass inc.skills cur.skills).2.2.2 inc.skills).1 := rfl

/-- Conflicts from the first role loop are `modified` with both sides. -/
theorem roleModifiedPass_shape (now : Int) (incR : List Role) (l : List Role) :
    ∀ c ∈ (roleModifiedPass now incR l).1,
      c.type = .modified ∧ c.current.isSome ∧ c.incoming.isSome := by
  induction l with
  | nil => simp [roleModifiedPass]
  | cons r rest ih =>
    intro c hc
    simp only [roleModifiedPass] at hc
    rcases hm : findBestRoleMatch now r incR (1/2) with _ | ⟨m, score⟩
    · rw [hm] at hc
      exact ih c hc
    · simp only [hm] at hc
      by_cases hd : rolesAreDifferent r m = true
      · rw [if_pos hd] at hc
        rcases List.mem_cons.mp hc with rfl | hc2
        · exact ⟨rfl, by simp⟩
        · exact ih c hc2
      · rw [if_neg hd] at hc
        exact ih c hc

/-- Conflicts from the removed-role loop carry only `current`. -/
theorem roleRemovedPass_shape (matched : List (Option String)) (l : List Role) :
    ∀ c ∈ (roleRemovedPass matched l).1,
      c.type = .removed ∧ c.current.isSome ∧ c.incoming = none := by
  induction l with
  | nil => simp [roleRemovedPass]
  | cons r rest ih =>
    intro c hc
    simp only [roleRemovedPass] at hc
    by_cases hmem : r.id ∈ matched
    · rw [if_pos hmem] at hc
      exact ih c hc
    · rw [if_neg hmem] at hc
      rcases List.mem_cons.mp hc with rfl | hc2
      · exact ⟨rfl, by simp⟩
      · exact ih c hc2

/-- Conflicts from the added-role loop carry only `incoming`. -/
theorem roleAddedPass_shape (matched : List (Option String)) (l : List Role) :
    ∀ c ∈ (roleAddedPass matched l).1,
      c.type = .added ∧ c.incoming.isSome ∧ c.current = none := by
  induction l with
  | nil => simp [roleAddedPass]
  | cons r rest ih =>
    intro c hc
    simp only [roleAddedPass] at hc
    by_cases hmem : r.id ∈ matched
    · rw [if_pos hmem] at hc
      exact ih c hc
    · rw [if_neg hmem] at hc
      rcases List.mem_cons.mp hc with rfl | hc2
      · exact ⟨rfl, by simp⟩
      · exact ih c hc2

/-- Conflicts from the first skill loop are `modified` with both sides or
`removed` with only `current`. -/
theorem skillModifiedPass_shape (incS : List Skill) (l : List Skill) :
    ∀ c ∈ (skillModifiedPass incS l).1,
      (c.type = .modified ∧ c.current.isSome ∧ c.incoming.isSome)
        ∨ (c.type = .removed ∧ c.current.isSome ∧ c.incoming = none) := by
  induction l with
  | nil => simp [skillModifiedPass]
  | cons r rest ih =>
    intro c hc
    simp only [skillModifiedPass] at hc
    rcases hm : matchSkillByName incS r.name with _ | m
    · rw [hm] at hc
      rcases List.mem_cons.mp hc with rfl | hc2
      · exact Or.inr ⟨rfl, by simp, rfl⟩
      · exact ih c hc2
    · simp only [hm] at hc
      by_cases hd : skillsAreDifferent r m = true
      · rw [if_pos hd] at hc
        rcases List.mem_cons.mp hc with rfl | hc2
        · exact Or.inl ⟨rfl, by simp⟩
        · exact ih c hc2
      · rw [if_neg hd] at hc
        exact ih c hc

/-- Conflicts from the added-skill loop carry only `incoming`. -/
theorem skillAddedPass_shape (matched : List String) (l : List Skill) :
    ∀ c ∈ (skillAddedPass matched l).1,
      c.type = .added ∧ c.incoming.isSome ∧ c.current = none := by
  induction l with
  | nil => simp [skillAddedPass]
  | cons r rest ih =>
    intro c hc
    simp only [skillAddedPass] at hc
    by_cases hmem : toLowerStr r.name ∈ matched
    · rw [if_pos hmem] at hc
      exact ih c hc
    · rw [if_neg hmem] at hc
      rcases List.mem_cons.mp hc with rfl | hc2
      · exact ⟨rfl, by simp⟩
      · exact ih c hc2

/-- `stats.rolesModified` counts the conflicts the first role loop pushed. -/
theorem roleModifiedPass_count (now : Int) (incR : List Role) (l : List Role) :
    (roleModifiedPass now incR l).2.1 = (roleModifiedPass now incR l).1.length := by
  induction l with
  | nil => simp [roleModifiedPass]
  | cons r rest ih =>
    simp only [roleModifiedPass]
    rcases hm : findBestRoleMatch now r incR (1/2) with _ | ⟨m, score⟩
    · simpa using ih
    · by_cases hd : rolesAreDifferent r m = true <;> simp [hd, ih]

/-- `stats.rolesRemoved` counts the removed-role conflicts. -/
theorem roleRemovedPass_count (matched : List (Option String)) (l : List Role) :
    (roleRemovedPass matched l).2 = (roleRemovedPass matched l).1.length := by
  induction l with
  | nil => simp [roleRemovedPass]
  | cons r rest ih =>
    simp only [roleRemovedPass]
    by_cases hmem : r.id ∈ matched <;> simp [hmem, ih]

/-- `stats.rolesAdded` counts the added-role conflicts. -/
theorem roleAddedPass_count (matched : List (Option String)) (l : List Role) :
    (roleAddedPass matched l).2 = (roleAddedPass matched l).1.length := by
  induction l with
  | nil => simp [roleAddedPass]
  | cons r rest ih =>
    simp only [roleAddedPass]
    by_cases hmem : r.id ∈ matched <;> simp [hmem, ih]

/-- `stats.skillsAdded` counts the added-skill conflicts. -/
theorem skillAddedPass_count (matched : List String) (l : List Skill) :
    (skillAddedPass matched l).2 = (skillAddedPass matched l).1.length := by
  induction l with
  | nil => simp [skillAddedPass]
  | cons r rest ih =>
    simp only [skillAddedPass]
    by_cases hmem : toLowerStr r.name ∈ matched <;> simp [hmem, ih]

/-- The two counters of the first skill loop count its `modified` and
`removed` conflicts. -/
theorem skillModifiedPass_counts (incS : List Skill) (l : List Skill) :
    (skillModifiedPass incS l).2.1 =
        (skillModifiedPass incS l).1.countP (fun c => decide (c.type = .modified))
      ∧ (skillModifiedPass incS l).2.2.1 =
        (skillModifiedPass incS l).1.countP (fun c => decide (c.type = .removed)) := by
  induction l with
  | nil => simp [skillModifiedPass]
  | cons r rest ih =>
    simp only [skillModifiedPass]
    rcases hm : matchSkillByName incS r.name with _ | m
    · simp [List.countP_cons, ih.1, ih.2]
    · by_cases hd : skillsAreDifferent r m = true <;>
        simp [hd, List.countP_cons, ih.1, ih.2]

/-- C7: every conflict the detector emits satisfies the nullability
invariant: at least one side present; `modified` has both; `added` has only
`incoming`; `removed` has only `current`. -/
theorem conflict_nullability_invariant :
    ∀ (now : Int) (cur inc : DomainCV),
      (∀ c ∈ (detectConflicts now cur inc).conflicts.roles,
        (c.current.isSome ∨ c.incoming.isSome)
          ∧ (c.type = .modified → c.current.isSome ∧ c.incoming.isSome)
          ∧ (c.type = .added → c.incoming.isSome ∧ c.current = none)
          ∧ (c.type = .removed → c.current.isSome ∧ c.incoming = none))
      ∧ (∀ c ∈ (detectConflicts now cur inc).conflicts.skills,
        (c.current.isSome ∨ c.incoming.isSome)
          ∧ (c.type = .modified → c.current.isSome ∧ c.incoming.isSome)
          ∧ (c.type = .added → c.incoming.isSome ∧ c.current = none)
          ∧ (c.type = .removed → c.current.isSome ∧ c.incoming = none)) := by
  intro now cur inc
  constructor
  · intro c hc
    rw [detect_roles_eq] at hc
    rcases List.mem_append.mp hc with h12 | h3
    · rcases List.mem_append.mp h12 with h1 | h2
      · obtain ⟨ht, hcur, hinc⟩ := roleModifiedPass_shape now inc.roles cur.roles c h1
        refine ⟨Or.inl hcur, fun _ => ⟨hcur, hinc⟩, fun ha => ?_, fun hr => ?_⟩
        · rw [ht] at ha; cases ha
        · rw [ht] at hr; cases hr
      · obtain ⟨ht, hcur, hinc⟩ := roleRemovedPass_shape _ cur.roles c h2
        refine ⟨Or.inl hcur, fun hm => ?_, fun ha => ?_, fun _ => ⟨hcur, hinc⟩⟩
        · rw [ht] at hm; cases hm
        · rw [ht] at ha; cases ha
    · obtain ⟨ht, hinc, hcur⟩ := roleAddedPass_shape _ inc.roles c h3
      refine ⟨Or.inr hinc, fun hm => ?_, fun _ => ⟨hinc, hcur⟩, fun hr => ?_⟩
      · rw [ht] at hm; cases hm
      · rw [ht] at hr; cases hr
  · intro c hc
    rw [detect_skills_eq] at hc
    rcases List.mem_append.mp hc with h1 | h2
    · rcases skillModifiedPass_shape inc.skills cur.skills c h1 with
        ⟨ht, hcur, hinc⟩ | ⟨ht, hcur, hinc⟩
      · refine ⟨Or.inl hcur, fun _ => ⟨hcur, hinc⟩, fun ha => ?_, fun hr => ?_⟩
        · rw [ht] at ha; cases ha
        · rw [ht] at hr; cases hr
      · refine ⟨Or.inl hcur, fun hm => ?_, fun ha => ?_, fun _ => ⟨hcur, hinc⟩⟩
        · rw [ht] at hm; cases hm
        · rw [ht] at ha; cases ha
    · obtain ⟨ht, hinc, hcur⟩ := skillAddedPass_shape _ inc.skills c h2
      refine ⟨Or.inr hinc, fun hm => ?_, fun _ => ⟨hinc, hcur⟩, fun hr => ?_⟩
      · rw [ht] at hm; cases hm
      · rw [ht] at hr; cases hr

/-- A list of conflicts that are each `modified` or `removed` is fully
counted by those two counts. -/
theorem countP_partition_skill (l : List SkillConflict)
    (h : ∀ c ∈ l, c.type = .modified ∨ c.type = .removed) :
    l.countP (fun c => decide (c.type = .modified))
      + l.countP (fun c => decide (c.type = .removed)) = l.length := by
  induction l with
  | nil => simp
  | cons x xs ih =>
    have hx := h x (by simp)
    have ihx := ih (fun c hc => h c (by simp [hc]))
    rcases hx with ht | ht <;> simp [List.countP_cons, ht] <;> omega

/-- C10: the stats counters agree with the conflict lists: per-kind sums
equal list lengths and each counter equals the number of conflicts of its
type. -/
theorem stats_match_conflict_lists :
    ∀ (now : Int) (cur inc : DomainCV),
      (detectConflicts now cur inc).stats.rolesModified
          + (detectConflicts now cur inc).stats.rolesAdded
          + (detectConflicts now cur inc).stats.rolesRemoved
        = (detectConflicts now cur inc).conflicts.roles.length
      ∧ (detectConflicts now cur inc).stats.skillsModified
          + (detectConflicts now cur inc).stats.skillsAdded
          + (detectConflicts now cur inc).stats.skillsRemoved
        = (detectConflicts now cur inc).conflicts.skills.length
      ∧ (detectConflicts now cur inc).stats.rolesModified
        = (detectConflicts now cur inc).conflicts.roles.countP
            (fun c => decide (c.type = .modified))
      ∧ (detectConflicts now cur inc).stats.rolesAdded
        = (detectConflicts now cur inc).conflicts.roles.countP
            (fun c => decide (c.type = .added))
      ∧ (detectConflicts now cur inc).stats.rolesRemoved
        = (detectConflicts now cur inc).conflicts.roles.countP
            (fun c => decide (c.type = .removed))
      ∧ (detectConflicts now cur inc).stats.skillsModified
        = (detectConflicts now cur inc).conflicts.skills.countP
            (fun c => decide (c.type = .modified))
      ∧ (detectConflicts now cur inc).stats.skillsAdded
        = (detectConflicts now cur inc).conflicts.skills.countP
            (fun c => decide (c.type = .added))
      ∧ (detectConflicts now cur inc).stats.skillsRemoved
        = (detectConflicts now cur inc).conflicts.skills.countP
            (fun c => decide (c.type = .removed)) := by
  intro now cur inc
  have hRolesEq := detect_roles_eq now cur inc
  have hSkillsEq := detect_skills_eq now cur inc
  have hrmS := roleModifiedPass_shape now inc.roles cur.roles
  have hrrS := roleRemovedPass_shape (roleModifiedPass now inc.roles cur.roles).2.2.1 cur.roles
  have hraS := roleAddedPass_shape (roleModifiedPass now inc.roles cur.roles).2.2.2 inc.roles
  have hsmS := skillModifiedPass_shape inc.skills cur.skills
  have hsaS := skillAddedPass_shape (skillModifiedPass inc.skills cur.skills).2.2.2 inc.skills
  have h1 : (detectConflicts now cur inc).stats.rolesModified
      = (roleModifiedPass now inc.roles cur.roles).1.length :=
    roleModifiedPass_count now inc.roles cur.roles
  have h2 : (detectConflicts now cur inc).stats.rolesRemoved
      = (roleRemovedPass (roleModifiedPass now inc.roles cur.roles).2.2.1 cur.roles).1.length :=
    roleRemovedPass_count _ _
  have h3 : (detectConflicts now cur inc).stats.rolesAdded
      = (roleAddedPass (roleModifiedPass now inc.roles cur.roles).2.2.2 inc.roles).1.length :=
    roleAddedPass_count _ _
  have h4 : (detectConflicts now cur inc).stats.skillsAdded
      = (skillAddedPass (skillModifiedPass inc.skills cur.skills).2.2.2 inc.skills).1.length :=
    skillAddedPass_count _ _
  have h5 : (detectConflicts now cur inc).stats.skillsModified
      = (skillModifiedPass inc.skills cur.skills).1.countP
          (fun c => decide (c.type = .modified)) :=
    (skillModifiedPass_counts inc.skills cur.skills).1
  have h6 : (detectConflicts now cur inc).stats.skillsRemoved
      = (skillModifiedPass inc.skills cur.skills).1.countP
          (fun c => decide (c.type = .removed)) :=
    (skillModifiedPass_counts inc.skills cur.skills).2
  have eModLen : (roleModifiedPass now inc.roles cur.roles).1.countP
      (fun c => decide (c.type = .modified))
      = (roleModifiedPass now inc.roles cur.roles).1.length :=
    List.countP_eq_length.mpr (fun c hcm => by simp [(hrmS c hcm).1])
  have eModAdd : (roleModifiedPass now inc.roles cur.roles).1.countP
      (fun c => decide (c.type = .added)) = 0 :=
    List.countP_eq_zero.mpr (fun c hcm => by simp [(hrmS c hcm).1])
  have eModRem : (roleModifiedPass now inc.roles cur.roles).1.countP
      (fun c => decide (c.type = .removed)) = 0 :=
    List.countP_eq_zero.mpr (fun c hcm => by simp [(hrmS c hcm).1])
  have eRemLen : (roleRemovedPass (roleModifiedPass now inc.roles cur.roles).2.2.1 cur.roles).1.countP
      (fun c => decide (c.type = .removed))
      = (roleRemovedPass (roleModifiedPass now inc.roles cur.roles).2.2.1 cur.roles).1.length :=
    List.countP_eq_length.mpr (fun c hcm => by simp [(hrrS c hcm).1])
  have eRemMod : (roleRemovedPass (roleModifiedPass now inc.roles cur.roles).2.2.1 cur.roles).1.countP
      (fun c => decide (c.type = .modified)) = 0 :=
    List.countP_eq_zero.mpr (fun c hcm => by simp [(hrrS c hcm).1])
  have eRemAdd : (roleRemovedPass (roleModifiedPass now inc.roles cur.roles).2.2.1 cur.roles).1.countP
      (fun c => decide (c.type = .added)) = 0 :=
    List.countP_eq_zero.mpr (fun c hcm => by simp [(hrrS c hcm).1])
  have eAddLen : (roleAddedPass (roleModifiedPass now inc.roles cur.roles).2.2.2 inc.roles).1.countP
      (fun c => decide (c.type = .added))
      = (roleAddedPass (roleModifiedPass now inc.roles cur.roles).2.2.2 inc.roles).1.length :=
    List.countP_eq_length.mpr (fun c hcm => by simp [(hraS c hcm).1])
  have eAddMod : (roleAddedPass (roleModifiedPass now inc.roles cur.roles).2.2.2 inc.roles).1.countP
      (fun c => decide (c.type = .modified)) = 0 :=
    List.countP_eq_zero.mpr (fun c hcm => by simp [(hraS c hcm).1])
  have eAddRem : (roleAddedPass (roleModifiedPass now inc.roles cur.roles).2.2.2 inc.roles).1.countP
      (fun c => decide (c.type = .removed)) = 0 :=
    List.countP_eq_zero.mpr (fun c hcm => by simp [(hraS c hcm).1])
  have eSModAdd : (skillModifiedPass inc.skills cur.skills).1.countP
      (fun c => decide (c.type = .added)) = 0 :=
    List.countP_eq_zero.mpr (fun c hcm => by
      rcases hsmS c hcm with ⟨ht, _, _⟩ | ⟨ht, _, _⟩ <;> simp [ht])
  have eSAddLen : (skillAddedPass (skillModifiedPass inc.skills cur.skills).2.2.2 inc.skills).1.countP
      (fun c => decide (c.type = .added))
      = (skillAddedPass (skillModifiedPass inc.skills cur.skills).2.2.2 inc.skills).1.length :=
    List.countP_eq_length.mpr (fun c hcm => by simp [(hsaS c hcm).1])
  have eSAddMod : (skillAddedPass (skillModifiedPass inc.skills cur.skills).2.2.2 inc.skills).1.countP
      (fun c => decide (c.type = .modified)) = 0 :=
    List.countP_eq_zero.mpr (fun c hcm => by simp [(hsaS c hcm).1])
  have eSAddRem : (skillAddedPass (skillModifiedPass inc.skills cur.skills).2.2.2 inc.skills).1.countP
      (fun c => decide (c.type = .removed)) = 0 :=
    List.countP_eq_zero.mpr (fun c hcm => by simp [(hsaS c hcm).1])
  have hpart := countP_partition_skill (skillModifiedPass inc.skills cur.skills).1
    (fun c hc => (hsmS c hc).imp (fun h => h.1) (fun h => h.1))
  refine ⟨?_, ?_, ?_, ?_, ?_, ?_, ?_, ?_⟩
  · rw [h1, h2, h3, hRolesEq]
    simp only [List.length_append]
    omega
  · rw [h4, h5, h6, hSkillsEq]
    simp only [List.length_append]
    omega
  · rw [h1, hRolesEq]
    simp only [List.countP_append]
    omega
  · rw [h3, hRolesEq]
    simp only [List.countP_append]
    omega
  · rw [h2, hRolesEq]
    simp only [List.countP_append]
    omega
  · rw [h5, hSkillsEq]
    simp only [List.countP_append]
    omega
  · rw [h4, hSkillsEq]
    simp only [List.countP_append]
    omega
  · rw [h6, hSkillsEq]
    simp only [List.countP_append]
    omega

/-- Witness for C7: the scenario-D analysis contains the concrete `added`
conflict and it satisfies the invariant. -/
theorem conflict_nullability_invariant_witness :
    ({ id := "role-added-d1", type := .added, «section» := .role
       current := none, incoming := some scenDRole
       matchScore := none } : RoleConflict) ∈ (detectConflicts 0 emptyCV scenDInc).conflicts.roles
    ∧ ((({ id := "role-added-d1", type := .added, «section» := .role
           current := none, incoming := some scenDRole
           matchScore := none } : RoleConflict).current.isSome
          ∨ ({ id := "role-added-d1", type := .added, «section» := .role
               current := none, incoming := some scenDRole
               matchScore := none } : RoleConflict).incoming.isSome)) :=
  ⟨by set_option maxRecDepth 4000 in with_unfolding_all decide,
   ((conflict_nullability_invariant 0 emptyCV scenDInc).1 _
     (by set_option maxRecDepth 4000 in with_unfolding_all decide)).1⟩

/-- A bilingual value never differs from itself. -/
theorem textsAreDifferent_self (a : BilingualText) : textsAreDifferent a a = false := by
  simp [textsAreDifferent]

/-- A role never differs from itself. -/
theorem rolesAreDifferent_self (r : Role) : rolesAreDifferent r r = false := by
  simp [rolesAreDifferent, textsAreDifferent_self]

/-- A skill never differs from itself. -/
theorem skillsAreDifferent_self (s : Skill) : skillsAreDifferent s s = false := by
  simp [skillsAreDifferent]

/-- Matching a role against itself hits the id short circuit. -/
theorem calculateRoleMatchScore_self (now : Int) (r : Role) :
    calculateRoleMatchScore now r r = 1 := by
  simp [calculateRoleMatchScore]

/-- Scanning candidates that all score below 1 keeps the running best
below 1. -/
theorem foldl_bestMatchStep_low (now : Int) (role : Role) (threshold : Rat)
    (l : List Role) (acc : Option Role × Rat)
    (hl : ∀ x ∈ l, calculateRoleMatchScore now role x < 1) (hacc : acc.2 < 1) :
    (l.foldl (bestMatchStep now role threshold) acc).2 < 1 := by
  induction l generalizing acc with
  | nil => simpa using hacc
  | cons x xs ih =>
    rw [List.foldl_cons]
    refine ih _ (fun y hy => hl y (by simp [hy])) ?_
    simp only [bestMatchStep]
    split
    · simpa using hl x (by simp)
    · exact hacc

/-- Once the scan holds a perfect score, lower-scoring candidates cannot
replace it. -/
theorem foldl_bestMatchStep_keep (now : Int) (role : Role) (threshold : Rat)
    (l : List Role) (m : Role)
    (hl : ∀ x ∈ l, calculateRoleMatchScore now role x < 1) :
    l.foldl (bestMatchStep now role threshold) (some m, 1) = (some m, 1) := by
  induction l with
  | nil => rfl
  | cons x xs ih =>
    rw [List.foldl_cons]
    have hx := hl x (by simp)
    have hstep : bestMatchStep now role threshold (some m, 1) x = (some m, 1) := by
      simp only [bestMatchStep]
      rw [if_neg (by
        simp only [Bool.and_eq_true, decide_eq_true_eq]
        rintro ⟨hgt, -⟩
        exact absurd hgt (lt_asymm hx))]
    rw [hstep]
    exact ih (fun y hy => hl y (by simp [hy]))

/-- If every other candidate scores below 1, a role placed anywhere in the
candidate list is its own best match, with score 1. -/
theorem findBestRoleMatch_self (now : Int) (r : Role) (l1 l2 : List Role)
    (h : ∀ x ∈ l1 ++ l2, calculateRoleMatchScore now r x < 1) :
    findBestRoleMatch now r (l1 ++ r :: l2) (1/2) = some (r, 1) := by
  unfold findBestRoleMatch
  rw [List.foldl_append, List.foldl_cons]
  have hacc1 : (l1.foldl (bestMatchStep now r (1/2)) (none, 0)).2 < 1 :=
    foldl_bestMatchStep_low now r (1/2) l1 (none, 0)
      (fun x hx => h x (by simp [hx])) (by norm_num)
  have hstep : bestMatchStep now r (1/2) (l1.foldl (bestMatchStep now r (1/2)) (none, 0)) r
      = (some r, 1) := by
    simp only [bestMatchStep, calculateRoleMatchScore_self]
    rw [if_pos (by
      simp only [Bool.and_eq_true, decide_eq_true_eq]
      exact ⟨hacc1, by norm_num⟩)]
  rw [hstep, foldl_bestMatchStep_keep now r (1/2) l2 r (fun x hx => h x (by simp [hx]))]

/-- When every role is its own best match, the first role loop emits no
conflicts and marks everything matched. -/
theorem roleModifiedPass_self (now : Int) (roles : List Role)
    (hbest : ∀ r ∈ roles, findBestRoleMatch now r roles (1/2) = some (r, 1)) :
    ∀ l : List Role, (∀ r ∈ l, r ∈ roles) →
      roleModifiedPass now roles l = ([], 0, l.map (·.id), l.map (·.id)) := by
  intro l
  induction l with
  | nil => intro _; rfl
  | cons r rest ih =>
    intro hsub
    simp only [roleModifiedPass, ih (fun x hx => hsub x (by simp [hx])),
      hbest r (hsub r (by simp)), rolesAreDifferent_self]
    simp

/-- No removed conflicts when every current role id was matched. -/
theorem roleRemovedPass_all_matched (matched : List (Option String)) (l : List Role)
    (h : ∀ r ∈ l, r.id ∈ matched) : roleRemovedPass matched l = ([], 0) := by
  induction l with
  | nil => rfl
  | cons r rest ih =>
    simp only [roleRemovedPass, if_pos (h r (by simp)),
      ih (fun x hx => h x (by simp [hx]))]

/-- No added conflicts when every incoming role id was matched. -/
theorem roleAddedPass_all_matched (matched : List (Option String)) (l : List Role)
    (h : ∀ r ∈ l, r.id ∈ matched) : roleAddedPass matched l = ([], 0) := by
  induction l with
  | nil => rfl
  | cons r rest ih =>
    simp only [roleAddedPass, if_pos (h r (by simp)),
      ih (fun x hx => h x (by simp [hx]))]

/-- With case-insensitively unique names, a skill matches itself. -/
theorem matchSkillByName_self (skills : List Skill) (s : Skill)
    (hmem : s ∈ skills)
    (hnodup : skills.Pairwise (fun a b => toLowerStr a.name ≠ toLowerStr b.name)) :
    matchSkillByName skills s.name = some s := by
  induction skills with
  | nil => cases hmem
  | cons x xs ih =>
    rcases List.pairwise_cons.mp hnodup with ⟨hx, hxs⟩
    rcases List.mem_cons.mp hmem with rfl | hmem2
    · simp [matchSkillByName]
    · have hne : toLowerStr x.name ≠ toLowerStr s.name := hx s hmem2
      have hfalse : decide (toLowerStr x.name = toLowerStr s.name) = false := by
        simpa using hne
      simp only [matchSkillByName, List.find?_cons, hfalse]
      exact ih hmem2 hxs

/-- When every skill matches itself, the first skill loop emits no
conflicts. -/
theorem skillModifiedPass_self (incS : List Skill) (l : List Skill)
    (hfind : ∀ s ∈ l, matchSkillByName incS s.name = some s) :
    skillModifiedPass incS l = ([], 0, 0, l.map fun s => toLowerStr s.name) := by
  induction l with
  | nil => rfl
  | cons s rest ih =>
    simp only [skillModifiedPass, hfind s (by simp),
      ih (fun x hx => hfind x (by simp [hx])), skillsAreDifferent_self]
    simp

/-- No added conflicts when every incoming skill name was matched. -/
theorem skillAddedPass_all_matched (matched : List String) (l : List Skill)
    (h : ∀ s ∈ l, toLowerStr s.name ∈ matched) : skillAddedPass matched l = ([], 0) := by
  induction l with
  | nil => rfl
  | cons s rest ih =>
    simp only [skillAddedPass, if_pos (h s (by simp)),
      ih (fun x hx => h x (by simp [hx]))]

/-- C1 amended: `detectConflicts(A, A)` reports no conflicts for every
well-formed snapshot `A` in which no two *distinct* roles score a perfect
1.0 against each other.  (Without that proviso the non-exclusive greedy
matcher can pair a role with a perfect-scoring twin instead of itself, see
the counterexample.) -/
theorem detect_self_no_conflicts :
    ∀ (now : Int) (A : DomainCV), WellFormed A →
      (∀ r ∈ A.roles, ∀ s ∈ A.roles, r.id ≠ s.id →
        calculateRoleMatchScore now r s < 1) →
      (detectConflicts now A A).hasConflicts = false
        ∧ (detectConflicts now A A).totalConflicts = 0 := by
  intro now A hwf hscore
  obtain ⟨_hRidSome, hRidNodup, _hSidSome, _hSidNodup, hSnameNodup⟩ := hwf
  have hbest : ∀ r ∈ A.roles, findBestRoleMatch now r A.roles (1/2) = some (r, 1) := by
    intro r hr
    obtain ⟨l1, l2, hsplit⟩ := List.append_of_mem hr
    have hpw : (l1 ++ r :: l2).Pairwise (fun a b : Role => a.id ≠ b.id) := by
      rw [← hsplit]; exact hRidNodup
    have hmid := (List.pairwise_middle (fun {x y} h => h.symm)).mp hpw
    rcases List.pairwise_cons.mp hmid with ⟨hrne, _⟩
    rw [hsplit]
    apply findBestRoleMatch_self
    intro x hx
    have hxmem : x ∈ A.roles := by
      rw [hsplit]
      rcases List.mem_append.mp hx with h1 | h2
      · exact List.mem_append_left _ h1
      · exact List.mem_append_right _ (by simp [h2])
    exact hscore r hr x hxmem (hrne x hx)
  have hmp : roleModifiedPass now A.roles A.roles
      = ([], 0, A.roles.map (·.id), A.roles.map (·.id)) :=
    roleModifiedPass_self now A.roles hbest A.roles (fun _ h => h)
  have hfind : ∀ s ∈ A.skills, matchSkillByName A.skills s.name = some s :=
    fun s hs => matchSkillByName_self A.skills s hs hSnameNodup
  have hsmp : skillModifiedPass A.skills A.skills
      = ([], 0, 0, A.skills.map fun s => toLowerStr s.name) :=
    skillModifiedPass_self A.skills A.skills hfind
  have htitle : textFieldConflict "title" .title A.title A.title = none := by
    simp [textFieldConflict, textsAreDifferent_self]
  have hsummary : textFieldConflict "summary" .summary A.summary A.summary = none := by
    simp [textFieldConflict, textsAreDifferent_self]
  have htot : (detectConflicts now A A).totalConflicts = 0 := by
    show (if (textFieldConflict "title" .title A.title A.title).isSome then 1 else 0)
        + (if (textFieldConflict "summary" .summary A.summary A.summary).isSome then 1 else 0)
        + ((roleModifiedPass now A.roles A.roles).1
            ++ (roleRemovedPass (roleModifiedPass now A.roles A.roles).2.2.1 A.roles).1
            ++ (roleAddedPass (roleModifiedPass now A.roles A.roles).2.2.2 A.roles).1).length
        + ((skillModifiedPass A.skills A.skills).1
            ++ (skillAddedPass (skillModifiedPass A.skills A.skills).2.2.2 A.skills).1).length
        = 0
    rw [htitle, hsummary, hmp, hsmp]
    rw [roleRemovedPass_all_matched _ _ (fun r hr => by simpa using ⟨r, hr, rfl⟩)]
    rw [roleAddedPass_all_matched _ _ (fun r hr => by simpa using ⟨r, hr, rfl⟩)]
    rw [skillAddedPass_all_matched _ _ (fun s hs => by simpa using ⟨s, hs, rfl⟩)]
    simp
  refine ⟨?_, htot⟩
  have hhc : (detectConflicts now A A).hasConflicts
      = decide ((detectConflicts now A A).totalConflicts > 0) := rfl
  rw [hhc, htot]
  rfl

/-- First alias role of the C1 counterexample. -/
def c1AliasA : Role :=
  { baseRole with
    id := some "a", title := some "Developer", company := some "Acme"
    start := some "2020-01", «end» := some "2021-01"
    location := some "Stockholm" }

/-- Second alias role: identical except id and location, so it scores a
perfect 1.0 against the first. -/
def c1AliasB : Role := { c1AliasA with id := some "b", location := some "Gothenburg" }

/-- The two-alias snapshot. -/
def c1AliasCV : DomainCV := { emptyCV with roles := [c1AliasA, c1AliasB] }

/-- C1 counterexample: a well-formed snapshot on which
`detectConflicts(A, A)` is *not* conflict-free — the second role's best
match is the first role (equal title/company/dates give score 1.0, and the
scan keeps the earliest maximum), so a spurious `modified` and a spurious
`added` conflict are emitted. -/
theorem detect_self_not_idempotent :
    WellFormed c1AliasCV
    ∧ (detectConflicts 20000 c1AliasCV c1AliasCV).hasConflicts = true
    ∧ (detectConflicts 20000 c1AliasCV c1AliasCV).totalConflicts = 2 := by
  refine ⟨?_, ?_, ?_⟩
  · set_option maxRecDepth 4000 in with_unfolding_all decide
  · set_option maxRecDepth 4000 in with_unfolding_all decide
  · set_option maxRecDepth 4000 in with_unfolding_all decide

/-- A role for the C1 witness that shares nothing with `scenARoleCur`. -/
def c1OtherRole : Role :=
  { baseRole with
    id := some "w2", title := some "Janitor", company := some "Globex"
    start := some "2015-01", «end» := some "2016-01" }

/-- The C1 witness snapshot: two unrelated roles, one skill. -/
def c1WitnessCV : DomainCV :=
  { emptyCV with roles := [scenARoleCur, c1OtherRole], skills := [scenBSkillCur] }

/-- Witness for C1 amended: on a concrete snapshot satisfying both
hypotheses, self-comparison reports no conflicts. -/
theorem detect_self_no_conflicts_witness :
    WellFormed c1WitnessCV
    ∧ (∀ r ∈ c1WitnessCV.roles, ∀ s ∈ c1WitnessCV.roles, r.id ≠ s.id →
        calculateRoleMatchScore 20000 r s < 1)
    ∧ (detectConflicts 20000 c1WitnessCV c1WitnessCV).hasConflicts = false
    ∧ (detectConflicts 20000 c1WitnessCV c1WitnessCV).totalConflicts = 0 := by
  have h1 : WellFormed c1WitnessCV := by
    set_option maxRecDepth 4000 in with_unfolding_all decide
  have h2 : ∀ r ∈ c1WitnessCV.roles, ∀ s ∈ c1WitnessCV.roles, r.id ≠ s.id →
      calculateRoleMatchScore 20000 r s < 1 := by
    set_option maxRecDepth 4000 in with_unfolding_all decide
  exact ⟨h1, h2, (detect_self_no_conflicts 20000 c1WitnessCV h1 h2).1,
    (detect_self_no_conflicts 20000 c1WitnessCV h1 h2).2⟩

/-- Distinct characters have distinct code points. -/
theorem char_toNat_ne {x y : Char} (h : x ≠ y) : x.toNat ≠ y.toNat := by
  intro heq
  apply h
  exact_mod_cast Char.ofNat_toNat x ▸ Char.ofNat_toNat y ▸ congrArg Char.ofNat heq

/-- The lexicographic character-list order is total. -/
theorem charListLe_total (a b : List Char) :
    charListLe a b = true ∨ charListLe b a = true := by
  induction a generalizing b with
  | nil => left; rfl
  | cons x xs ih =>
    cases b with
    | nil => right; rfl
    | cons y ys =>
      by_cases hxy : x = y
      · subst hxy
        simp only [charListLe, if_pos rfl]
        exact ih ys
      · have hne := char_toNat_ne hxy
        simp only [charListLe, if_neg hxy, if_neg (Ne.symm hxy), decide_eq_true_eq]
        omega

/-- The lexicographic character-list order is transitive. -/
theorem charListLe_trans {a b c : List Char}
    (h1 : charListLe a b = true) (h2 : charListLe b c = true) :
    charListLe a c = true := by
  induction a generalizing b c with
  | nil => rfl
  | cons x xs ih =>
    cases b with
    | nil => simp [charListLe] at h1
    | cons y ys =>
      cases c with
      | nil => simp [charListLe] at h2
      | cons z zs =>
        by_cases hxy : x = y
        · subst hxy
          by_cases hyz : x = z
          · subst hyz
            simp only [charListLe, if_pos rfl] at h1 h2 ⊢
            exact ih h1 h2
          · simp only [charListLe, if_pos rfl] at h1
            simp only [charListLe, if_neg hyz] at h2 ⊢
            exact h2
        · by_cases hyz : y = z
          · subst hyz
            have hxz := hxy
            simp only [charListLe, if_neg hxy] at h1 ⊢
            exact h1
          · have hn1 := char_toNat_ne hxy
            have hn2 := char_toNat_ne hyz
            simp only [charListLe, if_neg hxy, if_neg hyz, decide_eq_true_eq] at h1 h2
            by_cases hxz : x = z
            · subst hxz
              omega
            · simp only [charListLe, if_neg hxz, decide_eq_true_eq]
              omega

/-- The lexicographic character-list order is antisymmetric. -/
theorem charListLe_antisymm {a b : List Char}
    (h1 : charListLe a b = true) (h2 : charListLe b a = true) : a = b := by
  induction a generalizing b with
  | nil =>
    cases b with
    | nil => rfl
    | cons y ys => simp [charListLe] at h2
  | cons x xs ih =>
    cases b with
    | nil => simp [charListLe] at h1
    | cons y ys =>
      by_cases hxy : x = y
      · subst hxy
        simp only [charListLe, if_pos rfl] at h1 h2
        rw [ih h1 h2]
      · have hne := char_toNat_ne hxy
        simp only [charListLe, if_neg hxy, if_neg (Ne.symm hxy), decide_eq_true_eq] at h1 h2
        omega

/-- The string order `strLe` is total. -/
theorem strLe_total (a b : String) : strLe a b = true ∨ strLe b a = true :=
  charListLe_total a.data b.data

/-- The string order `strLe` is transitive. -/
theorem strLe_trans {a b c : String} (h1 : strLe a b = true) (h2 : strLe b c = true) :
    strLe a c = true :=
  charListLe_trans h1 h2

/-- The string order `strLe` is antisymmetric. -/
theorem strLe_antisymm {a b : String} (h1 : strLe a b = true) (h2 : strLe b a = true) :
    a = b := by
  cases a with
  | mk da =>
    cases b with
    | mk db =>
      have := charListLe_antisymm (a := da) (b := db) h1 h2
      rw [this]

/-- Insertion sort by `strLe` maps permuted string lists to the same sorted list, so a sorted name list is a canonical set representative. -/
theorem insortBy_strLe_eq_of_perm {l1 l2 : List String} (hp : List.Perm l1 l2) :
    insortBy strLe l1 = insortBy strLe l2 := by
  haveI : IsAntisymm String (fun a b => strLe a b = true) :=
    ⟨fun _ _ h1 h2 => strLe_antisymm h1 h2⟩
  have hs1 : List.Sorted (fun a b => strLe a b = true) (insortBy strLe l1) :=
    insortBy_pairwise strLe l1 (fun a _ b _ => strLe_total a b)
      (fun a _ b _ c _ h1 h2 => strLe_trans h1 h2)
  have hs2 : List.Sorted (fun a b => strLe a b = true) (insortBy strLe l2) :=
    insortBy_pairwise strLe l2 (fun a _ b _ => strLe_total a b)
      (fun a _ b _ c _ h1 h2 => strLe_trans h1 h2)
  exact List.eq_of_perm_of_sorted
    ((insortBy_perm strLe l1).trans (hp.trans (insortBy_perm strLe l2).symm)) hs1 hs2

/-- A duplicate-free list contained in a list of the same length is a permutation of it (the two-sided inclusion check of `rolesAreDifferent`). -/
theorem nameSet_perm {la lb : List String} (hna : la.Nodup)
    (hlen : la.length = lb.length) (hsub : ∀ x ∈ la, x ∈ lb) :
    List.Perm la lb :=
  (List.subperm_of_subset hna hsub).perm_of_length_le hlen.ge

/-- Bilingual texts the detector considers equal have the same content key. -/
theorem bkey_eq_of_not_different {a b : BilingualText}
    (h : textsAreDifferent a b = false) : bkey a = bkey b := by
  simp only [textsAreDifferent, Bool.or_eq_false_iff, decide_eq_false_iff_not,
    not_not] at h
  simp only [bkey, Prod.mk.injEq]
  exact ⟨h.1, h.2⟩

/-- Roles the detector considers equal have the same content key: every compared field agrees and the two tag-name sets are permutations, hence sort to the same canonical list. -/
theorem rkey_eq_of_not_different {r m : Role}
    (h : rolesAreDifferent r m = false) : rkey r = rkey m := by
  simp only [rolesAreDifferent, Bool.or_eq_false_iff, decide_eq_false_iff_not,
    not_not, List.any_eq_false, not_forall] at h
  obtain ⟨⟨⟨⟨⟨⟨⟨⟨⟨ht, hco⟩, hl⟩, hs⟩, he⟩, hc⟩, hv⟩, hd⟩, hn⟩, hset⟩ := h
  have hperm : List.Perm (roleSkillNames r) (roleSkillNames m) := by
    refine nameSet_perm (List.nodup_dedup _) ?_ ?_
    · exact hset.1
    · intro x hx
      have := hset.2 x hx
      simpa using this
  have hbk := bkey_eq_of_not_different hd
  simp only [bkey, Prod.mk.injEq] at hbk
  simp only [rkey, RoleKey.mk.injEq]
  exact ⟨ht, hco, hl, hs, he, hc, hv, hbk.1, hbk.2, hn,
    insortBy_strLe_eq_of_perm hperm⟩

/-- The merged skill built by an accepted `modified` skill conflict has the incoming skill's content key (`overriddenYears`/`calculatedYears` are not part of the key). -/
theorem skey_merge (cur inc : Skill) :
    skey { inc with
      overriddenYears := cur.overriddenYears
      calculatedYears := cur.calculatedYears } = skey inc := rfl

/-- A current skill matched by name to an incoming skill it does not differ from has the incoming skill's content key. -/
theorem skey_eq_of_match {incS : List Skill} {s m : Skill}
    (hm : matchSkillByName incS s.name = some m)
    (hdiff : skillsAreDifferent s m = false) : skey s = skey m := by
  have hp := List.find?_some hm
  simp only [decide_eq_true_eq] at hp
  simp only [skillsAreDifferent, Bool.or_eq_false_iff, decide_eq_false_iff_not,
    not_not] at hdiff
  simp only [skey, Prod.mk.injEq]
  exact ⟨hp.symm, hdiff.1, hdiff.2⟩

/-- A current skill is handled by the first skill loop when it has no name match (it becomes `removed`) or its match differs (it becomes `modified`); unhandled skills stay out of the conflict list. -/
def skillHandled (incS : List Skill) (s : Skill) : Bool :=
  match matchSkillByName incS s.name with
  | some m => skillsAreDifferent s m
  | none => true

/-- A current role is handled by the role loops when it has no best match (it becomes `removed`) or its match differs (it becomes `modified`). -/
def roleHandled (now : Int) (incR : List Role) (r : Role) : Bool :=
  match findBestRoleMatch now r incR (1/2) with
  | some p => rolesAreDifferent r p.1
  | none => true

/-- The first skill loop's conflict list, element by element. -/
theorem skillModifiedPass_conflicts_eq (incS : List Skill) (l : List Skill) :
    (skillModifiedPass incS l).1 = l.filterMap (fun s =>
      match matchSkillByName incS s.name with
      | some m =>
        if skillsAreDifferent s m then
          some { id := "skill-" ++ jsStr s.id, type := .modified, «section» := .skill
                 current := some s, incoming := some m }
        else none
      | none =>
        some { id := "skill-removed-" ++ jsStr s.id, type := .removed
               «section» := .skill, current := some s, incoming := none }) := by
  induction l with
  | nil => rfl
  | cons s rest ih =>
    simp only [skillModifiedPass, List.filterMap_cons]
    rcases hm : matchSkillByName incS s.name with _ | m
    · simp [ih]
    · by_cases hd : skillsAreDifferent s m = true <;> simp [hd, ih]

/-- The matched-name list of the first skill loop: the lower-cased name of every match found. -/
theorem skillModifiedPass_names_eq (incS : List Skill) (l : List Skill) :
    (skillModifiedPass incS l).2.2.2 = l.filterMap (fun s =>
      (matchSkillByName incS s.name).map (fun m => toLowerStr m.name)) := by
  induction l with
  | nil => rfl
  | cons s rest ih =>
    simp only [skillModifiedPass, List.filterMap_cons]
    rcases hm : matchSkillByName incS s.name with _ | m
    · simp [ih]
    · by_cases hd : skillsAreDifferent s m = true <;> simp [hd, ih]

/-- The second skill loop's conflict list: one `added` conflict per unmatched incoming skill. -/
theorem skillAddedPass_eq (matched : List String) (l : List Skill) :
    (skillAddedPass matched l).1 =
      (l.filter (fun s => toLowerStr s.name ∉ matched)).map (fun s =>
        { id := "skill-added-" ++ jsStr s.id, type := .added, «section» := .skill
          current := none, incoming := some s }) := by
  induction l with
  | nil => rfl
  | cons s rest ih =>
    simp only [skillAddedPass]
    by_cases hmem : toLowerStr s.name ∈ matched <;> simp [hmem, ih]

/-- The first role loop's conflict list, element by element. -/
theorem roleModifiedPass_conflicts_eq (now : Int) (incR : List Role) (l : List Role) :
    (roleModifiedPass now incR l).1 = l.filterMap (fun r =>
      match findBestRoleMatch now r incR (1/2) with
      | some p =>
        if rolesAreDifferent r p.1 then
          some { id := "role-" ++ jsStr r.id, type := .modified, «section» := .role
                 current := some r, incoming := some p.1, matchScore := some p.2 }
        else none
      | none => none) := by
  induction l with
  | nil => rfl
  | cons r rest ih =>
    simp only [roleModifiedPass, List.filterMap_cons]
    rcases hm : findBestRoleMatch now r incR (1/2) with _ | ⟨m, score⟩
    · simp [hm, ih]
    · by_cases hd : rolesAreDifferent r m = true <;> simp [hm, hd, ih]

/-- The matched-current-ids list of the first role loop: the id of every current role with a best match. -/
theorem roleModifiedPass_matchedCur_eq (now : Int) (incR : List Role) (l : List Role) :
    (roleModifiedPass now incR l).2.2.1 =
      (l.filter (fun r => (findBestRoleMatch now r incR (1/2)).isSome)).map (·.id) := by
  induction l with
  | nil => rfl
  | cons r rest ih =>
    simp only [roleModifiedPass]
    rw [List.filter_cons]
    rcases hm : findBestRoleMatch now r incR (1/2) with _ | ⟨m, score⟩
    · simp [ih]
    · by_cases hd : rolesAreDifferent r m = true <;> simp [hd, ih]

/-- The matched-incoming-ids list of the first role loop: the id of every best match found. -/
theorem roleModifiedPass_matchedInc_eq (now : Int) (incR : List Role) (l : List Role) :
    (roleModifiedPass now incR l).2.2.2 =
      l.filterMap (fun r => (findBestRoleMatch now r incR (1/2)).map (fun p => p.1.id)) := by
  induction l with
  | nil => rfl
  | cons r rest ih =>
    simp only [roleModifiedPass, List.filterMap_cons]
    rcases hm : findBestRoleMatch now r incR (1/2) with _ | ⟨m, score⟩
    · simp [hm, ih]
    · by_cases hd : rolesAreDifferent r m = true <;> simp [hm, hd, ih]

/-- The second role loop's conflict list: one `removed` conflict per unmatched current role. -/
theorem roleRemovedPass_eq (matched : List (Option String)) (l : List Role) :
    (roleRemovedPass matched l).1 =
      (l.filter (fun r => r.id ∉ matched)).map (fun r =>
        { id := "role-removed-" ++ jsStr r.id, type := .removed, «section» := .role
          current := some r, incoming := none, matchScore := none }) := by
  induction l with
  | nil => rfl
  | cons r rest ih =>
    simp only [roleRemovedPass]
    by_cases hmem : r.id ∈ matched <;> simp [hmem, ih]

/-- The third role loop's conflict list: one `added` conflict per unmatched incoming role. -/
theorem roleAddedPass_eq (matched : List (Option String)) (l : List Role) :
    (roleAddedPass matched l).1 =
      (l.filter (fun r => r.id ∉ matched)).map (fun r =>
        { id := "role-added-" ++ jsStr r.id, type := .added, «section» := .role
          current := none, incoming := some r, matchScore := none }) := by
  induction l with
  | nil => rfl
  | cons r rest ih =>
    simp only [roleAddedPass]
    by_cases hmem : r.id ∈ matched <;> simp [hmem, ih]

/-- The best-match scan only ever holds candidates from the candidate list. -/
theorem foldl_bestMatchStep_mem (now : Int) (r : Role) (th : Rat)
    (cands : List Role) :
    ∀ (l : List Role) (acc : Option Role × Rat),
      (∀ m, acc.1 = some m → m ∈ cands) → (∀ x ∈ l, x ∈ cands) →
      ∀ m, (l.foldl (bestMatchStep now r th) acc).1 = some m → m ∈ cands := by
  intro l
  induction l with
  | nil => intro acc hacc _ m hm; exact hacc m hm
  | cons x xs ih =>
    intro acc hacc hsub m hm
    rw [List.foldl_cons] at hm
    refine ih _ ?_ (fun y hy => hsub y (by simp [hy])) m hm
    intro m2 hm2
    simp only [bestMatchStep] at hm2
    split at hm2
    · have hx2 : (some x : Option Role) = some m2 := hm2
      rw [Option.some.injEq] at hx2
      rw [← hx2]
      exact hsub x (by simp)
    · exact hacc m2 hm2

/-- A best role match is one of the candidates. -/
theorem findBestRoleMatch_mem {now : Int} {r : Role} {cands : List Role}
    {th : Rat} {p : Role × Rat} (h : findBestRoleMatch now r cands th = some p) :
    p.1 ∈ cands := by
  unfold findBestRoleMatch at h
  rcases hf : (cands.foldl (bestMatchStep now r th) (none, 0)) with ⟨o, sc⟩
  rw [hf] at h
  cases o with
  | none => simp at h
  | some m =>
    simp only [Option.some.injEq] at h
    have hm : m ∈ cands :=
      foldl_bestMatchStep_mem now r th cands cands (none, 0)
        (by intro m hm; simp at hm) (fun x hx => hx) m (by rw [hf])
    rw [← h]
    exact hm

/-- The resolution-record fold never erases an entry already set to the default choice. -/
theorem resFold_preserve {α : Type} (key : α → String) (d : ConflictResolution) :
    ∀ (l : List α) (f0 : String → Option ConflictResolution) (i : String),
      f0 i = some d →
      (l.foldl (fun f c => fun id => if id = key c then some d else f id) f0) i = some d := by
  intro l
  induction l with
  | nil => intro f0 i h; exact h
  | cons c cs ih =>
    intro f0 i h
    rw [List.foldl_cons]
    refine ih _ i ?_
    by_cases hc : i = key c <;> simp [hc, h]

/-- After the resolution-record fold, every folded conflict id maps to the default choice. -/
theorem resFold_mem {α : Type} (key : α → String) (d : ConflictResolution) :
    ∀ (l : List α) (f0 : String → Option ConflictResolution) (c : α), c ∈ l →
      (l.foldl (fun f c => fun id => if id = key c then some d else f id) f0) (key c)
        = some d := by
  intro l
  induction l with
  | nil => intro _ _ hc; cases hc
  | cons x xs ih =>
    intro f0 c hc
    rw [List.foldl_cons]
    rcases List.mem_cons.mp hc with rfl | hmem
    · refine resFold_preserve key d xs _ (key c) ?_
      simp
    · exact ih _ c hmem

/-- In `acceptAllIncoming`, every detected role conflict resolves to `accept`. -/
theorem acceptAll_roles_lookup (analysis : ConflictAnalysis) :
    ∀ c ∈ analysis.conflicts.roles,
      (acceptAllIncoming analysis).roles c.id = some .accept := by
  intro c hc
  exact resFold_mem (fun c : RoleConflict => c.id) .accept
    analysis.conflicts.roles (fun _ => none) c hc

/-- In `acceptAllIncoming`, every detected skill conflict resolves to `accept`. -/
theorem acceptAll_skills_lookup (analysis : ConflictAnalysis) :
    ∀ c ∈ analysis.conflicts.skills,
      (acceptAllIncoming analysis).skills c.id = some .accept := by
  intro c hc
  exact resFold_mem (fun c : SkillConflict => c.id) .accept
    analysis.conflicts.skills (fun _ => none) c hc

/-- The skill-conflict loop distributes over list concatenation componentwise. -/
theorem processSkillConflicts_append (res : String → Option ConflictResolution)
    (l1 l2 : List SkillConflict) :
    processSkillConflicts res (l1 ++ l2) =
      ((processSkillConflicts res l1).1 ++ (processSkillConflicts res l2).1,
       (processSkillConflicts res l1).2.1 ++ (processSkillConflicts res l2).2.1,
       (processSkillConflicts res l1).2.2 ++ (processSkillConflicts res l2).2.2) := by
  induction l1 with
  | nil => simp [processSkillConflicts]
  | cons c cs ih =>
    obtain ⟨cid, ctype, csec, ccur, cinc⟩ := c
    cases ctype <;> cases ccur <;> cases cinc <;>
      simp only [List.cons_append, processSkillConflicts, ih] <;>
      (try split_ifs) <;> simp [ih]

/-- The role-conflict loop distributes over list concatenation componentwise. -/
theorem processRoleConflicts_append (res : String → Option ConflictResolution)
    (l1 l2 : List RoleConflict) :
    processRoleConflicts res (l1 ++ l2) =
      ((processRoleConflicts res l1).1 ++ (processRoleConflicts res l2).1,
       (processRoleConflicts res l1).2.1 ++ (processRoleConflicts res l2).2.1,
       (processRoleConflicts res l1).2.2 ++ (processRoleConflicts res l2).2.2) := by
  induction l1 with
  | nil => simp [processRoleConflicts]
  | cons c cs ih =>
    obtain ⟨cid, ctype, csec, ccur, cinc, cms⟩ := c
    cases ctype <;> cases ccur <;> cases cinc <;>
      simp only [List.cons_append, processRoleConflicts, ih] <;>
      (try split_ifs) <;> simp [ih]

/-- Pairwise-distinct keys make the key function injective on the list. -/
theorem key_inj_of_pairwise {α β : Type} (key : α → β) {l : List α}
    (hpw : l.Pairwise (fun a b => key a ≠ key b)) :
    ∀ x ∈ l, ∀ y ∈ l, key x = key y → x = y := by
  have hsym : Symmetric (fun a b : α => key a = key b → a = b) := by
    intro a b h he
    exact (h he.symm).symm
  have hpw2 : l.Pairwise (fun a b => key a = key b → a = b) :=
    hpw.imp (fun h he => absurd he h)
  intro x hx y hy hk
  by_cases hxy : x = y
  · exact hxy
  · exact hpw2.forall hsym hx hy hxy hk

/-- With injective keys, membership of a key in the key image of a filtered list is exactly the filter predicate. -/
theorem mem_filter_map_key {α β : Type} (key : α → β) {l : List α}
    (hinj : ∀ x ∈ l, ∀ y ∈ l, key x = key y → x = y) (p : α → Bool) {x : α}
    (hx : x ∈ l) : key x ∈ (l.filter p).map key ↔ p x = true := by
  constructor
  · intro h
    rcases List.mem_map.mp h with ⟨y, hy, hk⟩
    rcases List.mem_filter.mp hy with ⟨hyl, hyp⟩
    rw [hinj y hyl x hx hk] at hyp
    exact hyp
  · intro hp
    exact List.mem_map.mpr ⟨x, List.mem_filter.mpr ⟨hx, hp⟩, rfl⟩

/-- Filtering out the elements whose key lies in a given id list equals filtering by the negated predicate that characterizes that id list. -/
theorem filter_notin_of_iff {α β : Type} [BEq β] [LawfulBEq β] (key : α → β) (q : α → Bool)
    (l : List α) (ids : List β) (h : ∀ x ∈ l, (key x ∈ ids ↔ q x = true)) :
    l.filter (fun x => key x ∉ ids) = l.filter (fun x => !q x) := by
  refine List.filter_congr ?_
  intro x hx
  by_cases hq : q x = true
  · simp [hq, (h x hx).mpr hq]
  · have hni : key x ∉ ids := fun hmem => hq ((h x hx).mp hmem)
    simp [hni, Bool.eq_false_iff.mpr hq]

/-- Accept-all processing of the first skill loop's conflicts: the handled-id list is exactly the handled current skills, and the pushed skills together with the unhandled current skills carry, as a multiset of content keys, one key per matched incoming skill. -/
theorem processSkill_modPass_acceptAll (res : String → Option ConflictResolution)
    (incS : List Skill) (l : List Skill)
    (hres : ∀ c ∈ (skillModifiedPass incS l).1, res c.id = some .accept) :
    (processSkillConflicts res (skillModifiedPass incS l).1).2.1 =
        (l.filter (fun s => skillHandled incS s)).map (fun s => s.id)
      ∧ Multiset.ofList ((processSkillConflicts res (skillModifiedPass incS l).1).1.map skey)
          + Multiset.ofList ((l.filter (fun s => !skillHandled incS s)).map skey)
        = Multiset.ofList
            ((l.filterMap (fun s => matchSkillByName incS s.name)).map skey) := by
  induction l with
  | nil => simp [skillModifiedPass, processSkillConflicts]
  | cons s rest ih =>
    simp only [skillModifiedPass] at hres ⊢
    rcases hm : matchSkillByName incS s.name with _ | m
    · -- no match: removed conflict, accepted resolution drops the current
      simp only [hm] at hres ⊢
      have hres' : ∀ c ∈ (skillModifiedPass incS rest).1, res c.id = some .accept :=
        fun c hc => hres c (List.mem_cons_of_mem _ hc)
      obtain ⟨ih1, ih2⟩ := ih hres'
      have hacc := hres _ (List.mem_cons_self _ _)
      simp only [processSkillConflicts, hacc]
      constructor
      · simp [skillHandled, hm, ih1]
      · simpa [skillHandled, hm, List.filterMap_cons] using ih2
    · simp only [hm] at hres ⊢
      by_cases hd : skillsAreDifferent s m = true
      · -- matched and different: accepted conflict pushes the merged skill
        simp only [hd, if_true] at hres ⊢
        have hres' : ∀ c ∈ (skillModifiedPass incS rest).1, res c.id = some .accept :=
          fun c hc => hres c (List.mem_cons_of_mem _ hc)
        obtain ⟨ih1, ih2⟩ := ih hres'
        have hacc := hres _ (List.mem_cons_self _ _)
        simp only [processSkillConflicts, hacc]
        constructor
        · simp [skillHandled, hm, hd, ih1]
        · simp only [if_true, List.filterMap_cons, hm]
          rw [List.filter_cons_of_neg (by simp [skillHandled, hm, hd])]
          have hk : skey { m with
              overriddenYears := s.overriddenYears
              calculatedYears := s.calculatedYears } = skey m := skey_merge s m
          simp only [List.map_cons, ← Multiset.cons_coe]
          rw [Multiset.cons_add, hk, ih2]
      · -- matched but identical: no conflict, the current stays in the rest
        rw [if_neg hd] at hres ⊢
        obtain ⟨ih1, ih2⟩ := ih hres
        constructor
        · rw [List.filter_cons_of_neg (by simp [skillHandled, hm, hd])]
          exact ih1
        · rw [List.filter_cons_of_pos (by simp [skillHandled, hm, hd])]
          simp only [List.map_cons, List.filterMap_cons, hm, ← Multiset.cons_coe]
          rw [Multiset.add_cons, skey_eq_of_match hm (by simpa using hd), ih2]

/-- Accept-all processing of the `added` skill conflicts pushes exactly the unmatched incoming skills and handles no current ids. -/
theorem processSkill_addPass_acceptAll (res : String → Option ConflictResolution)
    (matched : List String) (l : List Skill)
    (hres : ∀ c ∈ (skillAddedPass matched l).1, res c.id = some .accept) :
    (processSkillConflicts res (skillAddedPass matched l).1).1 =
        l.filter (fun s => toLowerStr s.name ∉ matched)
      ∧ (processSkillConflicts res (skillAddedPass matched l).1).2.1 = [] := by
  induction l with
  | nil => simp [skillAddedPass, processSkillConflicts]
  | cons s rest ih =>
    simp only [skillAddedPass] at hres ⊢
    by_cases hmem : toLowerStr s.name ∈ matched
    · rw [if_pos hmem] at hres ⊢
      obtain ⟨ih1, ih2⟩ := ih hres
      refine ⟨?_, ih2⟩
      rw [List.filter_cons_of_neg (by simp [hmem]), ih1]
    · rw [if_neg hmem] at hres ⊢
      have hres' : ∀ c ∈ (skillAddedPass matched rest).1, res c.id = some .accept :=
        fun c hc => hres c (List.mem_cons_of_mem _ hc)
      obtain ⟨ih1, ih2⟩ := ih hres'
      have hacc := hres _ (List.mem_cons_self _ _)
      simp only [processSkillConflicts, hacc, if_true]
      refine ⟨?_, ih2⟩
      rw [List.filter_cons_of_pos (by simp [hmem]), ih1]

/-- A current role that has a best match it differs from (the `modified` conflict condition of the first role loop). -/
def roleMatchedDiff (now : Int) (incR : List Role) (r : Role) : Bool :=
  match findBestRoleMatch now r incR (1/2) with
  | some p => rolesAreDifferent r p.1
  | none => false

/-- Accept-all processing of the first role loop's conflicts: the handled ids are the matched-and-different current roles, and the pushed roles together with the unhandled current roles carry one content key per best match found. -/
theorem processRole_modPass_acceptAll (res : String → Option ConflictResolution)
    (now : Int) (incR : List Role) (l : List Role)
    (hres : ∀ c ∈ (roleModifiedPass now incR l).1, res c.id = some .accept) :
    (processRoleConflicts res (roleModifiedPass now incR l).1).2.1 =
        (l.filter (fun r => roleMatchedDiff now incR r)).map (fun r => r.id)
      ∧ Multiset.ofList ((processRoleConflicts res (roleModifiedPass now incR l).1).1.map rkey)
          + Multiset.ofList ((l.filter (fun r => !roleHandled now incR r)).map rkey)
        = Multiset.ofList
            ((l.filterMap (fun r =>
                (findBestRoleMatch now r incR (1/2)).map (fun p => p.1))).map rkey) := by
  induction l with
  | nil => simp [roleModifiedPass, processRoleConflicts]
  | cons r rest ih =>
    simp only [roleModifiedPass] at hres ⊢
    rcases hm : findBestRoleMatch now r incR (1/2) with _ | ⟨m, score⟩
    · -- no best match: not part of the first loop at all
      simp only [hm] at hres ⊢
      obtain ⟨ih1, ih2⟩ := ih hres
      have hmd : roleMatchedDiff now incR r = false := by
        unfold roleMatchedDiff
        rw [hm]
      have hrh : roleHandled now incR r = true := by
        unfold roleHandled
        rw [hm]
      have hfm : Option.map (fun p => (p : Role × Rat).1)
          (findBestRoleMatch now r incR (1/2)) = none := by
        rw [hm]
        rfl
      constructor
      · rw [List.filter_cons_of_neg (by simp [hmd]), ih1]
      · rw [List.filter_cons_of_neg (by simp [hrh]),
          List.filterMap_cons_none
            (f := fun r => Option.map (fun p => (p : Role × Rat).1)
              (findBestRoleMatch now r incR (1/2))) hfm]
        exact ih2
    · simp only [hm] at hres ⊢
      have hfm : Option.map (fun p => (p : Role × Rat).1)
          (findBestRoleMatch now r incR (1/2)) = some m := by
        rw [hm]
        rfl
      by_cases hd : rolesAreDifferent r m = true
      · -- matched and different: accepted conflict pushes the incoming role
        rw [if_pos hd] at hres ⊢
        have hres' : ∀ c ∈ (roleModifiedPass now incR rest).1, res c.id = some .accept :=
          fun c hc => hres c (List.mem_cons_of_mem _ hc)
        obtain ⟨ih1, ih2⟩ := ih hres'
        have hacc := hres _ (List.mem_cons_self _ _)
        have hmd : roleMatchedDiff now incR r = true := by
          unfold roleMatchedDiff
          rw [hm]
          exact hd
        have hrh : roleHandled now incR r = true := by
          unfold roleHandled
          rw [hm]
          exact hd
        simp only [processRoleConflicts, hacc, if_true]
        constructor
        · rw [List.filter_cons_of_pos (by simp [hmd]), List.map_cons, ih1]
        · rw [List.filter_cons_of_neg (by simp [hrh]),
            List.filterMap_cons_some
              (f := fun r => Option.map (fun p => (p : Role × Rat).1)
                (findBestRoleMatch now r incR (1/2))) hfm]
          simp only [List.map_cons, ← Multiset.cons_coe]
          rw [Multiset.cons_add, ih2]
      · -- matched but identical: no conflict, the current stays in the rest
        rw [if_neg hd] at hres ⊢
        obtain ⟨ih1, ih2⟩ := ih hres
        have hmd : roleMatchedDiff now incR r = false := by
          unfold roleMatchedDiff
          rw [hm]
          exact Bool.eq_false_iff.mpr hd
        have hrh : roleHandled now incR r = false := by
          unfold roleHandled
          rw [hm]
          exact Bool.eq_false_iff.mpr hd
        constructor
        · rw [List.filter_cons_of_neg (by simp [hmd]), ih1]
        · rw [List.filter_cons_of_pos (by simp [hrh]),
            List.filterMap_cons_some
              (f := fun r => Option.map (fun p => (p : Role × Rat).1)
                (findBestRoleMatch now r incR (1/2))) hfm]
          simp only [List.map_cons, ← Multiset.cons_coe]
          rw [Multiset.add_cons,
            rkey_eq_of_not_different (Bool.eq_false_iff.mpr hd), ih2]

/-- Accept-all processing of the `removed` role conflicts pushes nothing (accept on a removal drops the current role) while handling every unmatched current id. -/
theorem processRole_remPass_acceptAll (res : String → Option ConflictResolution)
    (matched : List (Option String)) (l : List Role)
    (hres : ∀ c ∈ (roleRemovedPass matched l).1, res c.id = some .accept) :
    (processRoleConflicts res (roleRemovedPass matched l).1).1 = []
      ∧ (processRoleConflicts res (roleRemovedPass matched l).1).2.1 =
          (l.filter (fun r => r.id ∉ matched)).map (fun r => r.id) := by
  induction l with
  | nil => simp [roleRemovedPass, processRoleConflicts]
  | cons r rest ih =>
    simp only [roleRemovedPass] at hres ⊢
    by_cases hmem : r.id ∈ matched
    · rw [if_pos hmem] at hres ⊢
      obtain ⟨ih1, ih2⟩ := ih hres
      refine ⟨ih1, ?_⟩
      rw [List.filter_cons_of_neg (by simp [hmem]), ih2]
    · rw [if_neg hmem] at hres ⊢
      have hres' : ∀ c ∈ (roleRemovedPass matched rest).1, res c.id = some .accept :=
        fun c hc => hres c (List.mem_cons_of_mem _ hc)
      obtain ⟨ih1, ih2⟩ := ih hres'
      have hacc := hres _ (List.mem_cons_self _ _)
      simp only [processRoleConflicts, hacc]
      refine ⟨by simpa using ih1, ?_⟩
      rw [List.filter_cons_of_pos (by simp [hmem]), List.map_cons]
      simpa using ih2

/-- Accept-all processing of the `added` role conflicts pushes exactly the unmatched incoming roles and handles no current ids. -/
theorem processRole_addPass_acceptAll (res : String → Option ConflictResolution)
    (matched : List (Option String)) (l : List Role)
    (hres : ∀ c ∈ (roleAddedPass matched l).1, res c.id = some .accept) :
    (processRoleConflicts res (roleAddedPass matched l).1).1 =
        l.filter (fun r => r.id ∉ matched)
      ∧ (processRoleConflicts res (roleAddedPass matched l).1).2.1 = [] := by
  induction l with
  | nil => simp [roleAddedPass, processRoleConflicts]
  | cons r rest ih =>
    simp only [roleAddedPass] at hres ⊢
    by_cases hmem : r.id ∈ matched
    · rw [if_pos hmem] at hres ⊢
      obtain ⟨ih1, ih2⟩ := ih hres
      refine ⟨?_, ih2⟩
      rw [List.filter_cons_of_neg (by simp [hmem]), ih1]
    · rw [if_neg hmem] at hres ⊢
      have hres' : ∀ c ∈ (roleAddedPass matched rest).1, res c.id = some .accept :=
        fun c hc => hres c (List.mem_cons_of_mem _ hc)
      obtain ⟨ih1, ih2⟩ := ih hres'
      have hacc := hres _ (List.mem_cons_self _ _)
      simp only [processRoleConflicts, hacc, if_true]
      refine ⟨?_, ih2⟩
      rw [List.filter_cons_of_pos (by simp [hmem]), ih1]

/-- A name match is an incoming skill with the same lower-cased name. -/
theorem matchSkillByName_props {incS : List Skill} {s m : Skill}
    (hm : matchSkillByName incS s.name = some m) :
    m ∈ incS ∧ toLowerStr m.name = toLowerStr s.name := by
  refine ⟨List.mem_of_find?_eq_some hm, ?_⟩
  have := List.find?_some hm
  simpa using this

/-- With case-insensitively distinct names on both sides, the matches of the current skills are a permutation of the incoming skills whose names were matched. -/
theorem matched_skills_perm (curS incS : List Skill)
    (hcur : curS.Pairwise (fun a b => toLowerStr a.name ≠ toLowerStr b.name))
    (hinc : incS.Pairwise (fun a b => toLowerStr a.name ≠ toLowerStr b.name)) :
    List.Perm
      (curS.filterMap (fun s => matchSkillByName incS s.name))
      (incS.filter (fun b => toLowerStr b.name ∈
        curS.filterMap (fun s =>
          (matchSkillByName incS s.name).map (fun m => toLowerStr m.name)))) := by
  have hnd1 : (curS.filterMap (fun s => matchSkillByName incS s.name)).Nodup := by
    refine List.pairwise_filterMap.mpr ?_
    refine hcur.imp ?_
    intro a b hne x hx y hy
    obtain ⟨hxinc, hxn⟩ := matchSkillByName_props (Option.mem_def.mp hx)
    obtain ⟨hyinc, hyn⟩ := matchSkillByName_props (Option.mem_def.mp hy)
    intro heq
    rw [heq] at hxn
    exact hne (hxn ▸ hyn)
  have hnd2 : (incS.filter (fun b => toLowerStr b.name ∈
      curS.filterMap (fun s =>
        (matchSkillByName incS s.name).map (fun m => toLowerStr m.name)))).Nodup := by
    refine List.Nodup.filter _ ?_
    exact hinc.imp (fun hne heq => hne (by rw [heq]))
  refine (List.perm_ext_iff_of_nodup hnd1 hnd2).mpr ?_
  intro x
  constructor
  · intro hx
    rcases List.mem_filterMap.mp hx with ⟨s, hs, hms⟩
    obtain ⟨hxinc, hxn⟩ := matchSkillByName_props hms
    refine List.mem_filter.mpr ⟨hxinc, ?_⟩
    simp only [decide_eq_true_eq]
    exact List.mem_filterMap.mpr ⟨s, hs, by simp [hms]⟩
  · intro hx
    rcases List.mem_filter.mp hx with ⟨hxinc, hq⟩
    simp only [decide_eq_true_eq] at hq
    rcases List.mem_filterMap.mp hq with ⟨s, hs, hmap⟩
    rcases Option.map_eq_some'.mp (Option.mem_def.mp hmap) with ⟨m, hms, hname⟩
    obtain ⟨hminc, -⟩ := matchSkillByName_props hms
    have hmx : m = x :=
      key_inj_of_pairwise (fun s : Skill => toLowerStr s.name) hinc m hminc x hxinc hname
    exact List.mem_filterMap.mpr ⟨s, hs, by rw [hms, hmx]⟩

/-- With distinct ids on both sides and an injective matching, the best matches of the current roles are a permutation of the incoming roles whose ids were matched. -/
theorem matched_roles_perm (now : Int) (A B : DomainCV)
    (hA : A.roles.Pairwise (fun a b => a.id ≠ b.id))
    (hB : B.roles.Pairwise (fun a b => a.id ≠ b.id))
    (hinj : MatchInjective now A B) :
    List.Perm
      (A.roles.filterMap (fun r =>
        (findBestRoleMatch now r B.roles (1/2)).map (fun p => p.1)))
      (B.roles.filter (fun b => b.id ∈
        A.roles.filterMap (fun r =>
          (findBestRoleMatch now r B.roles (1/2)).map (fun p => p.1.id)))) := by
  have hnd1 : (A.roles.filterMap (fun r =>
      (findBestRoleMatch now r B.roles (1/2)).map (fun p => p.1))).Nodup := by
    refine List.pairwise_filterMap.mpr ?_
    refine List.Pairwise.imp_of_mem ?_ hA
    intro a b ha hb hne x hx y hy heq
    rcases Option.map_eq_some'.mp (Option.mem_def.mp hx) with ⟨pa, hpa, hpax⟩
    rcases Option.map_eq_some'.mp (Option.mem_def.mp hy) with ⟨pb, hpb, hpby⟩
    have hab : a = b := by
      refine hinj a ha b hb ?_ ?_
      · rw [hpa]
        rfl
      · rw [hpa, hpb]
        show (some pa.1.id : Option (Option String)) = some pb.1.id
        rw [hpax, hpby, heq]
    exact hne (by rw [hab])
  have hnd2 : (B.roles.filter (fun b => b.id ∈
      A.roles.filterMap (fun r =>
        (findBestRoleMatch now r B.roles (1/2)).map (fun p => p.1.id)))).Nodup := by
    refine List.Nodup.filter _ ?_
    exact hB.imp (fun hne heq => hne (by rw [heq]))
  refine (List.perm_ext_iff_of_nodup hnd1 hnd2).mpr ?_
  intro x
  constructor
  · intro hx
    rcases List.mem_filterMap.mp hx with ⟨r, hr, hmr⟩
    rcases Option.map_eq_some'.mp (Option.mem_def.mp hmr) with ⟨p, hp, hpx⟩
    have hxB : x ∈ B.roles := hpx ▸ findBestRoleMatch_mem hp
    refine List.mem_filter.mpr ⟨hxB, ?_⟩
    simp only [decide_eq_true_eq]
    refine List.mem_filterMap.mpr ⟨r, hr, ?_⟩
    rw [hp]
    simp [hpx]
  · intro hx
    rcases List.mem_filter.mp hx with ⟨hxB, hq⟩
    simp only [decide_eq_true_eq] at hq
    rcases List.mem_filterMap.mp hq with ⟨r, hr, hmap⟩
    rcases Option.map_eq_some'.mp (Option.mem_def.mp hmap) with ⟨p, hp, hpid⟩
    have hpB : p.1 ∈ B.roles := findBestRoleMatch_mem hp
    have hpb : p.1 = x :=
      key_inj_of_pairwise (fun r : Role => r.id) hB p.1 hpB x hxB hpid
    refine List.mem_filterMap.mpr ⟨r, hr, ?_⟩
    rw [hp]
    simp [hpb]

/-- The skill-resolution application unfolded: process the conflicts, keep the unhandled current skills, sort. -/
theorem applySkillResolutions_eq (cur inc : List Skill) (conf : List SkillConflict)
    (res : String → Option ConflictResolution) :
    applySkillResolutions cur inc conf res =
      insortBy skillSortLe ((processSkillConflicts res conf).1
        ++ cur.filter (fun s => s.id ∉ (processSkillConflicts res conf).2.1)) := rfl

/-- The role-resolution application unfolded: process the conflicts, keep the unhandled current roles, sort. -/
theorem applyRoleResolutions_eq (cur inc : List Role) (conf : List RoleConflict)
    (res : String → Option ConflictResolution) :
    applyRoleResolutions cur inc conf res =
      insortBy roleSortLe ((processRoleConflicts res conf).1
        ++ cur.filter (fun r => r.id ∉ (processRoleConflicts res conf).2.1)) := rfl

/-- Accept-all skill merging: whenever the resolution map accepts every detected skill conflict, the merged skill list carries exactly the incoming snapshot's multiset of skill content keys (requires distinct ids and case-insensitively distinct names in the current snapshot, and distinct names in the incoming one). -/
theorem merged_skills_content (now : Int) (A B : DomainCV)
    (hA4 : A.skills.Pairwise (fun a b => a.id ≠ b.id))
    (hA5 : A.skills.Pairwise (fun a b => toLowerStr a.name ≠ toLowerStr b.name))
    (hB5 : B.skills.Pairwise (fun a b => toLowerStr a.name ≠ toLowerStr b.name))
    (res : String → Option ConflictResolution)
    (hres : ∀ c ∈ (detectConflicts now A B).conflicts.skills, res c.id = some .accept) :
    Multiset.ofList
        ((applySkillResolutions A.skills B.skills
          (detectConflicts now A B).conflicts.skills res).map skey)
      = Multiset.ofList (B.skills.map skey) := by
  rw [detect_skills_eq] at hres ⊢
  have hres1 : ∀ c ∈ (skillModifiedPass B.skills A.skills).1, res c.id = some .accept :=
    fun c hc => hres c (List.mem_append_left _ hc)
  have hres2 : ∀ c ∈ (skillAddedPass (skillModifiedPass B.skills A.skills).2.2.2
      B.skills).1, res c.id = some .accept :=
    fun c hc => hres c (List.mem_append_right _ hc)
  obtain ⟨hhc1, hmul⟩ := processSkill_modPass_acceptAll res B.skills A.skills hres1
  obtain ⟨hpush2, hhc2⟩ := processSkill_addPass_acceptAll res _ B.skills hres2
  have happ := processSkillConflicts_append res (skillModifiedPass B.skills A.skills).1
    (skillAddedPass (skillModifiedPass B.skills A.skills).2.2.2 B.skills).1
  rw [applySkillResolutions_eq]
  refine Eq.trans (Multiset.coe_eq_coe.mpr (List.Perm.map skey (insortBy_perm _ _))) ?_
  simp only [happ, hhc1, hhc2, List.append_nil, hpush2]
  rw [filter_notin_of_iff (fun s : Skill => s.id) (fun s => skillHandled B.skills s)
    A.skills _ (fun x hx =>
      mem_filter_map_key (fun s : Skill => s.id)
        (key_inj_of_pairwise (fun s : Skill => s.id) hA4) _ hx)]
  rw [List.map_append, List.map_append, ← Multiset.coe_add, ← Multiset.coe_add]
  rw [add_right_comm, hmul]
  have hperm := matched_skills_perm A.skills B.skills hA5 hB5
  rw [skillModifiedPass_names_eq]
  rw [Multiset.coe_eq_coe.mpr (List.Perm.map skey hperm)]
  rw [Multiset.coe_add, ← List.map_append]
  refine Multiset.coe_eq_coe.mpr (List.Perm.map skey ?_)
  have hout : B.skills.filter (fun s => toLowerStr s.name ∉
        A.skills.filterMap (fun s =>
          (matchSkillByName B.skills s.name).map (fun m => toLowerStr m.name)))
      = B.skills.filter (fun s => !(decide (toLowerStr s.name ∈
          A.skills.filterMap (fun s =>
            (matchSkillByName B.skills s.name).map (fun m => toLowerStr m.name))))) := by
    simp only [decide_not]
  rw [hout]
  exact List.filter_append_perm _ B.skills

/-- Accept-all role merging: whenever the resolution map accepts every detected role conflict and the greedy matching is injective, the merged role list carries exactly the incoming snapshot's multiset of role content keys. -/
theorem merged_roles_content (now : Int) (A B : DomainCV)
    (hA2 : A.roles.Pairwise (fun a b => a.id ≠ b.id))
    (hB2 : B.roles.Pairwise (fun a b => a.id ≠ b.id))
    (hinj : MatchInjective now A B)
    (res : String → Option ConflictResolution)
    (hres : ∀ c ∈ (detectConflicts now A B).conflicts.roles, res c.id = some .accept) :
    Multiset.ofList
        ((applyRoleResolutions A.roles B.roles
          (detectConflicts now A B).conflicts.roles res).map rkey)
      = Multiset.ofList (B.roles.map rkey) := by
  rw [detect_roles_eq] at hres ⊢
  have hres1 : ∀ c ∈ (roleModifiedPass now B.roles A.roles).1, res c.id = some .accept :=
    fun c hc => hres c (List.mem_append_left _ (List.mem_append_left _ hc))
  have hresR : ∀ c ∈ (roleRemovedPass (roleModifiedPass now B.roles A.roles).2.2.1
      A.roles).1, res c.id = some .accept :=
    fun c hc => hres c (List.mem_append_left _ (List.mem_append_right _ hc))
  have hresA : ∀ c ∈ (roleAddedPass (roleModifiedPass now B.roles A.roles).2.2.2
      B.roles).1, res c.id = some .accept :=
    fun c hc => hres c (List.mem_append_right _ hc)
  obtain ⟨hhc1, hmul⟩ := processRole_modPass_acceptAll res now B.roles A.roles hres1
  obtain ⟨hpushR, hhcR⟩ := processRole_remPass_acceptAll res _ A.roles hresR
  obtain ⟨hpushA, hhcA⟩ := processRole_addPass_acceptAll res _ B.roles hresA
  have happ1 := processRoleConflicts_append res
    ((roleModifiedPass now B.roles A.roles).1
      ++ (roleRemovedPass (roleModifiedPass now B.roles A.roles).2.2.1 A.roles).1)
    ((roleAddedPass (roleModifiedPass now B.roles A.roles).2.2.2 B.roles).1)
  have happ2 := processRoleConflicts_append res
    (roleModifiedPass now B.roles A.roles).1
    ((roleRemovedPass (roleModifiedPass now B.roles A.roles).2.2.1 A.roles).1)
  rw [applyRoleResolutions_eq]
  refine Eq.trans (Multiset.coe_eq_coe.mpr (List.Perm.map rkey (insortBy_perm _ _))) ?_
  simp only [happ1, happ2, hhc1, hhcR, hhcA, hpushR, hpushA, List.append_nil]
  have hinjid := key_inj_of_pairwise (fun r : Role => r.id) hA2
  have hiff : ∀ x ∈ A.roles,
      (x.id ∈ (A.roles.filter (fun r => roleMatchedDiff now B.roles r)).map (fun r => r.id)
          ++ (A.roles.filter (fun r =>
                r.id ∉ (roleModifiedPass now B.roles A.roles).2.2.1)).map (fun r => r.id)
        ↔ roleHandled now B.roles x = true) := by
    intro x hx
    rw [List.mem_append, mem_filter_map_key (fun r : Role => r.id) hinjid _ hx,
      mem_filter_map_key (fun r : Role => r.id) hinjid _ hx]
    rw [roleModifiedPass_matchedCur_eq]
    have hmem2 := mem_filter_map_key (fun r : Role => r.id) hinjid
      (fun r => (findBestRoleMatch now r B.roles (1/2)).isSome) hx
    rcases hm : findBestRoleMatch now x B.roles (1/2) with _ | ⟨m, score⟩
    · have hmd : roleMatchedDiff now B.roles x = false := by
        unfold roleMatchedDiff
        rw [hm]
      have hrh : roleHandled now B.roles x = true := by
        unfold roleHandled
        rw [hm]
      have hns : x.id ∉ (A.roles.filter (fun r =>
          (findBestRoleMatch now r B.roles (1/2)).isSome)).map (fun r => r.id) := by
        intro hin
        have h2 := hmem2.mp hin
        simp only [hm, Option.isSome_none] at h2
        exact Bool.false_ne_true h2
      simp only [hmd, hrh, decide_eq_true_eq]
      exact ⟨fun _ => trivial, fun _ => Or.inr hns⟩
    · have hsome : x.id ∈ (A.roles.filter (fun r =>
          (findBestRoleMatch now r B.roles (1/2)).isSome)).map (fun r => r.id) := by
        refine hmem2.mpr ?_
        show (findBestRoleMatch now x B.roles (1/2)).isSome = true
        rw [hm]
        rfl
      by_cases hd : rolesAreDifferent x m = true
      · have hmd : roleMatchedDiff now B.roles x = true := by
          unfold roleMatchedDiff
          rw [hm]
          exact hd
        have hrh : roleHandled now B.roles x = true := by
          unfold roleHandled
          rw [hm]
          exact hd
        simp only [hmd, hrh, decide_eq_true_eq]
        exact ⟨fun _ => trivial, fun _ => Or.inl trivial⟩
      · have hmd : roleMatchedDiff now B.roles x = false := by
          unfold roleMatchedDiff
          rw [hm]
          exact Bool.eq_false_iff.mpr hd
        have hrh : roleHandled now B.roles x = false := by
          unfold roleHandled
          rw [hm]
          exact Bool.eq_false_iff.mpr hd
        simp only [hmd, hrh, decide_eq_true_eq]
        constructor
        · rintro (h | h)
          · exact (Bool.false_ne_true h).elim
          · exact (h hsome).elim
        · intro h
          exact (Bool.false_ne_true h).elim
  rw [filter_notin_of_iff (fun r : Role => r.id) (fun r => roleHandled now B.roles r)
    A.roles _ hiff]
  rw [List.map_append, List.map_append, ← Multiset.coe_add, ← Multiset.coe_add]
  rw [add_right_comm, hmul]
  have hperm := matched_roles_perm now A B hA2 hB2 hinj
  rw [roleModifiedPass_matchedInc_eq]
  rw [Multiset.coe_eq_coe.mpr (List.Perm.map rkey hperm)]
  rw [Multiset.coe_add, ← List.map_append]
  refine Multiset.coe_eq_coe.mpr (List.Perm.map rkey ?_)
  have hout : B.roles.filter (fun r => r.id ∉
        A.roles.filterMap (fun r =>
          (findBestRoleMatch now r B.roles (1/2)).map (fun p => p.1.id)))
      = B.roles.filter (fun r => !(decide (r.id ∈
          A.roles.filterMap (fun r =>
            (findBestRoleMatch now r B.roles (1/2)).map (fun p => p.1.id))))) := by
    simp only [decide_not]
  rw [hout]
  exact List.filter_append_perm _ B.roles

/-- The merged title field unfolded. -/
theorem merge_title_eq (nowStr : String) (current incoming : DomainCV)
    (analysis : ConflictAnalysis) (resolutions : ConflictResolutions) :
    (mergeWithResolutions nowStr current incoming analysis resolutions).title =
      (if analysis.conflicts.title.isSome && resolutions.title.isSome then
        if resolutions.title = some .accept then incoming.title else current.title
      else current.title) := rfl

/-- The merged summary field unfolded. -/
theorem merge_summary_eq (nowStr : String) (current incoming : DomainCV)
    (analysis : ConflictAnalysis) (resolutions : ConflictResolutions) :
    (mergeWithResolutions nowStr current incoming analysis resolutions).summary =
      (if analysis.conflicts.summary.isSome && resolutions.summary.isSome then
        if resolutions.summary = some .accept then incoming.summary else current.summary
      else current.summary) := rfl

/-- If no text conflict is emitted for a field, the two values have the same content key: either they do not differ, or they would both have to be without content, which contradicts differing. -/
theorem bkey_eq_of_no_conflict {f : String} {sec : ConflictSection}
    {a b : BilingualText} (h : textFieldConflict f sec a b = none) :
    bkey a = bkey b := by
  rw [textFieldConflict_eq_none_iff] at h
  by_cases hd : textsAreDifferent a b = true
  · exact absurd ⟨hd, textsAreDifferent_hasContent a b hd⟩ h
  · exact bkey_eq_of_not_different (Bool.eq_false_iff.mpr hd)

/-- C3 amended: for well-formed snapshots, accept-all merging yields the incoming snapshot's title, summary, role and skill content (up to sort order and the refreshed timestamp) provided additionally that the greedy role matching is injective (no two current roles share a best match); the claim's own no-false-removed proviso alone does not suffice. -/
theorem accept_all_round_trip (nowStr : String) (now : Int) (A B : DomainCV)
    (hA : WellFormed A) (hB : WellFormed B)
    (_hNFR : NoFalseRemoved now A B)
    (hinj : MatchInjective now A B) :
    ContentMatchesIncoming
      (mergeWithResolutions nowStr A B (detectConflicts now A B)
        (acceptAllIncoming (detectConflicts now A B))) B := by
  obtain ⟨hA1, hA2, hA3, hA4, hA5⟩ := hA
  obtain ⟨hB1, hB2, hB3, hB4, hB5⟩ := hB
  refine ⟨?_, ?_, ?_, ?_⟩
  · rcases htc : textFieldConflict "title" .title A.title B.title with _ | c
    · have hnone : (detectConflicts now A B).conflicts.title = none := by
        rw [detect_title_eq, htc]
      rw [merge_title_eq, hnone]
      simp only [Option.isSome_none, Bool.false_and, Bool.false_eq_true, if_false]
      exact bkey_eq_of_no_conflict htc
    · have hsome : (detectConflicts now A B).conflicts.title = some c := by
        rw [detect_title_eq, htc]
      have hrt : (acceptAllIncoming (detectConflicts now A B)).title =
          some ConflictResolution.accept := by
        show (if (detectConflicts now A B).conflicts.title.isSome then
          some ConflictResolution.accept else none) = some ConflictResolution.accept
        rw [hsome]
        rfl
      rw [merge_title_eq, hsome, hrt]
      rfl
  · rcases htc : textFieldConflict "summary" .summary A.summary B.summary with _ | c
    · have hnone : (detectConflicts now A B).conflicts.summary = none := by
        rw [detect_summary_eq, htc]
      rw [merge_summary_eq, hnone]
      simp only [Option.isSome_none, Bool.false_and, Bool.false_eq_true, if_false]
      exact bkey_eq_of_no_conflict htc
    · have hsome : (detectConflicts now A B).conflicts.summary = some c := by
        rw [detect_summary_eq, htc]
      have hrt : (acceptAllIncoming (detectConflicts now A B)).summary =
          some ConflictResolution.accept := by
        show (if (detectConflicts now A B).conflicts.summary.isSome then
          some ConflictResolution.accept else none) = some ConflictResolution.accept
        rw [hsome]
        rfl
      rw [merge_summary_eq, hsome, hrt]
      rfl
  · rw [merge_roles_eq]
    exact merged_roles_content now A B hA2 hB2 hinj _
      (acceptAll_roles_lookup (detectConflicts now A B))
  · rw [merge_skills_eq]
    exact merged_skills_content now A B hA4 hA5 hB5 _
      (acceptAll_skills_lookup (detectConflicts now A B))

/-- The round-trip proviso is decidable on concrete snapshots. -/
instance (now : Int) (A B : DomainCV) : Decidable (NoFalseRemoved now A B) := by
  unfold NoFalseRemoved
  infer_instance

/-- Match injectivity is decidable on concrete snapshots. -/
instance (now : Int) (A B : DomainCV) : Decidable (MatchInjective now A B) := by
  unfold MatchInjective
  infer_instance

/-- C3 counterexample, incoming role: one concrete role. -/
def c3Inc : Role :=
  { baseRole with
    id := some "b", title := some "Backend Engineer", company := some "Initech"
    start := some "2020-01-01", «end» := some "2021-01-01" }

/-- C3 counterexample: a current role identical to the incoming role except for its id. -/
def c3CurA : Role := { c3Inc with id := some "a1" }

/-- C3 counterexample: a second current role differing from the incoming role only in id and location, so it scores a perfect content match yet counts as modified. -/
def c3CurB : Role := { c3Inc with id := some "a2", location := some "Lund" }

/-- C3 counterexample, current snapshot with the two aliasing roles. -/
def c3CurCV : DomainCV := { emptyCV with roles := [c3CurA, c3CurB] }

/-- C3 counterexample, incoming snapshot with the single role. -/
def c3IncCV : DomainCV := { emptyCV with roles := [c3Inc] }

set_option maxRecDepth 4000 in
/-- C3 counterexample: both current roles best-match the single incoming role, so accept-all merging duplicates its content — the merged snapshot has two roles, the incoming one, and the claim's no-false-removed proviso holds vacuously (nothing is classified removed). The claimed round trip fails. -/
theorem accept_all_round_trip_failure :
    WellFormed c3CurCV ∧ WellFormed c3IncCV
      ∧ NoFalseRemoved 0 c3CurCV c3IncCV
      ∧ ¬ ContentMatchesIncoming
          (mergeWithResolutions "t" c3CurCV c3IncCV (detectConflicts 0 c3CurCV c3IncCV)
            (acceptAllIncoming (detectConflicts 0 c3CurCV c3IncCV))) c3IncCV := by
  refine ⟨by with_unfolding_all decide, by with_unfolding_all decide,
    by with_unfolding_all decide, ?_⟩
  intro h
  have hc := congrArg Multiset.card h.2.2.1
  simp only [Multiset.coe_card, List.length_map] at hc
  revert hc
  with_unfolding_all decide

set_option maxRecDepth 4000 in
/-- Witness for C3 amended: scenario A's snapshots are well-formed, satisfy both provisos, and accept-all merging reproduces the incoming content. -/
theorem accept_all_round_trip_witness :
    WellFormed scenACur ∧ WellFormed scenAInc
      ∧ NoFalseRemoved 0 scenACur scenAInc
      ∧ MatchInjective 0 scenACur scenAInc
      ∧ ContentMatchesIncoming
          (mergeWithResolutions "t" scenACur scenAInc (detectConflicts 0 scenACur scenAInc)
            (acceptAllIncoming (detectConflicts 0 scenACur scenAInc))) scenAInc :=
  ⟨by with_unfolding_all decide, by with_unfolding_all decide,
    by with_unfolding_all decide, by with_unfolding_all decide,
    accept_all_round_trip "t" 0 scenACur scenAInc
      (by with_unfolding_all decide) (by with_unfolding_all decide)
      (by with_unfolding_all decide) (by with_unfolding_all decide)⟩

end CvSystem
